import Mathlib

/-!
# Verification of the `life` grid engine (`src/game.js`)

A shallow embedding of the colored Game-of-Life engine: `Coordinates`,
`Cell`, and `Grid` with its `getCell`/`setCell`, `neighbors`, `tick`,
`serialize` and randomized pattern placement operations, together with
theorems settling the specification claims.

JavaScript `Map` storage is modelled as an insertion-ordered association
list; JavaScript numbers appearing as coordinate inputs are modelled as
rationals (so that `Number.isInteger` is expressible); `assert` failures
are modelled by `Option`-valued operations returning `none`.
-/

namespace Life

/-- A grid position; `Coordinates` objects carry two integers. -/
abbrev Coord := ℤ × ℤ

/-- An RGB triplet as stored in a cell (`setColor` checks each component). -/
abbrev RGB := ℤ × ℤ × ℤ

/-- `Cell.setColor`'s precondition: three integers, each in `[0, 255]`.
(Integrality is inherent in the `ℤ` components.) -/
def ValidRGB (c : RGB) : Prop :=
  0 ≤ c.1 ∧ c.1 ≤ 255 ∧ 0 ≤ c.2.1 ∧ c.2.1 ≤ 255 ∧ 0 ≤ c.2.2 ∧ c.2.2 ≤ 255

instance (c : RGB) : Decidable (ValidRGB c) := by
  unfold ValidRGB; infer_instance

/--
`new Coordinates(x, y)`: asserts `Number.isInteger(x)` and
`Number.isInteger(y)` (game.js lines 14–15).  Inputs are modelled as
rationals; integrality is `den = 1`.  On success the object's `getX`/`getY`
return the given values, modelled by the resulting integer pair.
-/
def coordinatesNew (x y : ℚ) : Option Coord :=
  if x.den = 1 ∧ y.den = 1 then some (x.num, y.num) else none

/-- `Coordinates.prototype.addOffsets`: adds each numeric offset pair
(game.js lines 31–35). -/
def addOffsets (p : Coord) (offsets : List (ℤ × ℤ)) : List Coord :=
  offsets.map (fun o => (p.1 + o.1, p.2 + o.2))

/-- The mutable state of a `Cell`: the `alive` flag and the optional color
(game.js lines 54–55; a fresh cell is dead with `color = null`). -/
structure CellState where
  alive : Bool
  color : Option RGB
deriving DecidableEq, Repr

/-- A freshly constructed cell: dead, no color. -/
def CellState.initial : CellState := ⟨false, none⟩

/-- `Cell.setColor`: asserts the new color is a valid RGB triplet, then
stores it; does not change `alive` (game.js lines 71–79). -/
def cellSetColor (s : CellState) (c : RGB) : Option CellState :=
  if ValidRGB c then some ⟨s.alive, some c⟩ else none

/-- `Cell.setAlive`: asserts a color is present (JS truthiness of the
stored array), then sets `alive = true` (game.js lines 92–97). -/
def cellSetAlive (s : CellState) : Option CellState :=
  match s.color with
  | some c => some ⟨true, some c⟩
  | none => none

/-- `Cell.setDead`: sets `alive = false` and clears the color
(game.js lines 105–109). -/
def cellSetDead (_ : CellState) : CellState := ⟨false, none⟩

/-- One cell-level operation, for stating the cell invariant over
arbitrary operation sequences. -/
inductive CellOp where
  | setColor (c : RGB)
  | setAlive
  | setDead
deriving DecidableEq, Repr

/-- Run one cell operation; `none` models an assertion failure. -/
def runCellOp (s : CellState) : CellOp → Option CellState
  | .setColor c => cellSetColor s c
  | .setAlive => cellSetAlive s
  | .setDead => some (cellSetDead s)

/-- Run a sequence of cell operations, aborting at the first assertion
failure. -/
def runCellOps (s : CellState) : List CellOp → Option CellState
  | [] => some s
  | op :: ops => (runCellOp s op).bind (fun s' => runCellOps s' ops)

/--
The `Grid` state (game.js lines 122–126): fixed inclusive bounds and a
JavaScript `Map` keyed by `Coordinates.toString()`, modelled as an
insertion-ordered association list keyed by the coordinate pair
(`toString` is injective on integer pairs, game.js line 37).
-/
structure Grid where
  maxX : ℤ
  maxY : ℤ
  cells : List (Coord × CellState)
deriving DecidableEq, Repr

/-- `Map.prototype.get`: first (unique) entry with the given key. -/
def lookupCell : List (Coord × CellState) → Coord → Option CellState
  | [], _ => none
  | e :: es, p => if e.1 = p then some e.2 else lookupCell es p

/-- `Map.prototype.set`: overwrite in place if the key is present
(keeping its position in iteration order), else append at the end. -/
def setEntry : List (Coord × CellState) → Coord → CellState → List (Coord × CellState)
  | [], p, st => [(p, st)]
  | e :: es, p, st => if e.1 = p then (p, st) :: es else e :: setEntry es p st

/-- The stored cell at `p`, if materialized. -/
def Grid.find (g : Grid) (p : Coord) : Option CellState := lookupCell g.cells p

/-- Store (or overwrite) the cell state at `p`. -/
def Grid.setCellState (g : Grid) (p : Coord) (st : CellState) : Grid :=
  ⟨g.maxX, g.maxY, setEntry g.cells p st⟩

/-- `getCell`'s bounds assertion (game.js lines 143–144):
`0 <= x <= maxX` and `0 <= y <= maxY`. -/
def Grid.inBounds (g : Grid) (p : Coord) : Prop :=
  0 ≤ p.1 ∧ p.1 ≤ g.maxX ∧ 0 ≤ p.2 ∧ p.2 ≤ g.maxY

instance (g : Grid) (p : Coord) : Decidable (g.inBounds p) := by
  unfold Grid.inBounds; infer_instance

/-- The observable alive flag at a coordinate: a never-materialized cell
is dead (a fresh `Cell` is constructed dead). -/
def Grid.aliveAt (g : Grid) (p : Coord) : Bool :=
  ((g.find p).map CellState.alive).getD false

/-- The observable color at a coordinate (a never-materialized cell has
none). -/
def Grid.colorAt (g : Grid) (p : Coord) : Option RGB :=
  (g.find p).bind CellState.color

/-- The whole observable state of one grid position. -/
def Grid.view (g : Grid) (p : Coord) : Bool × Option RGB := (g.aliveAt p, g.colorAt p)

/-- Mutate the (grid-owned) cell object at `p` in place.  Every cell
reaching such a mutation in the source has been materialized by a prior
`getCell`, so the absent case mirrors that materialization. -/
def Grid.updateCell (g : Grid) (p : Coord) (f : CellState → CellState) : Grid :=
  g.setCellState p (f ((g.find p).getD CellState.initial))

/--
`Grid.getCell` (game.js lines 141–147): asserts bounds, then returns the
stored cell, materializing (and storing) a fresh dead cell if none exists.
Returns the cell's state together with the updated grid; `none` models the
bounds assertion failing.
-/
def Grid.getCellO (g : Grid) (p : Coord) : Option (CellState × Grid) :=
  if g.inBounds p then
    match g.find p with
    | some st => some (st, g)
    | none => some (CellState.initial, g.setCellState p CellState.initial)
  else none

/-- `Grid.setCell` (game.js lines 154–163): asserts the cell's own
coordinates are in bounds, then replaces the slot. -/
def Grid.setCellO (g : Grid) (p : Coord) (st : CellState) : Option Grid :=
  if g.inBounds p then some (g.setCellState p st) else none

/-- Sequential `getCell` over a list of coordinates (the `.map(this.getCell)`
idiom), threading the materializing grid. -/
def Grid.getCellsO : Grid → List Coord → Option (List CellState × Grid)
  | g, [] => some ([], g)
  | g, p :: ps =>
    (g.getCellO p).bind fun sg =>
      (sg.2.getCellsO ps).map fun r => (sg.1 :: r.1, r.2)

/-- The eight Moore offsets, in source order (game.js lines 405–414). -/
def mooreOffsets : List (ℤ × ℤ) :=
  [(-1, -1), (0, -1), (1, -1), (-1, 0), (1, 0), (-1, 1), (0, 1), (1, 1)]

/-- The coordinate part of `Grid.prototype.neighbors` (game.js lines
402–422): the Moore offsets added to the cell's coordinates, clipped to
the grid bounds, in source order. -/
def Grid.neighborCoords (g : Grid) (p : Coord) : List Coord :=
  (addOffsets p mooreOffsets).filter fun q => decide (g.inBounds q)

/-- `Grid.prototype.neighbors`: the in-bounds Moore coordinates, with the
`.map(this.getCell)` step materializing each neighbor. -/
def Grid.neighborsO (g : Grid) (p : Coord) : Option (List Coord × Grid) :=
  (g.getCellsO (g.neighborCoords p)).map fun r => (g.neighborCoords p, r.2)

/-- Color validity of a stored cell, for the grid well-formedness
predicate. -/
def CellState.ValidColor (st : CellState) : Prop :=
  match st.color with
  | some c => ValidRGB c
  | none => False

instance (st : CellState) : Decidable st.ValidColor := by
  unfold CellState.ValidColor
  cases st.color <;> infer_instance

/--
Well-formedness of a grid state, as maintained by the source's public
operations: storage keys are unique (a JS `Map`), every stored cell is
in bounds (`getCell`/`setCell` assert this), and every live cell carries
a valid color (`setAlive` requires a color, which only `setColor`
installs).
-/
def Grid.WF (g : Grid) : Prop :=
  (g.cells.map Prod.fst).Nodup ∧
  (∀ e ∈ g.cells, g.inBounds e.1) ∧
  (∀ e ∈ g.cells, e.2.alive = true → e.2.ValidColor)

instance (g : Grid) : Decidable g.WF := by
  unfold Grid.WF; infer_instance

/-- The initial worklist of `tick` (game.js lines 177–179):
`Array.from(grid.values()).filter(isAlive)`, i.e. the coordinates of the
live stored cells in `Map` insertion order. -/
def Grid.liveList (g : Grid) : List Coord :=
  (g.cells.filter fun e => e.2.alive).map Prod.fst

/--
The body of `tick`'s `while` loop for one popped, not-yet-checked cell
(game.js lines 187–214).

This is the evaluation of one popped, not-yet-checked cell `p`: compute
its (materializing) neighbors, count the live ones, and either mark `p`
for a deferred flip (death, or birth with its color set immediately via
`setColor`) or leave it alone.  Returns the updated grid, the neighbor
list to enqueue (nonempty exactly when `p` is alive, game.js line 212)
and the updated `cellsToSwitch`; `none` models `setColor`'s assertion
failing (or `getColor()` of a live neighbor being `null`).  `avg` is the
Lab-average color pipeline (see `Grid.tick`).
-/
def tickStep (avg : RGB → RGB → RGB → RGB) (g : Grid) (p : Coord)
    (toSwitch : List Coord) : Option (Grid × List Coord × List Coord) :=
  match g.neighborsO p with
  | none => none
  | some (nbrs, g₁) =>
    let liveNbrs := nbrs.filter g₁.aliveAt
    if g₁.aliveAt p then
      if liveNbrs.length < 2 ∨ 3 < liveNbrs.length then
        some (g₁, nbrs, toSwitch ++ [p])
      else
        some (g₁, nbrs, toSwitch)
    else
      match liveNbrs with
      | [n₁, n₂, n₃] =>
        match g₁.colorAt n₁, g₁.colorAt n₂, g₁.colorAt n₃ with
        | some c₁, some c₂, some c₃ =>
          match cellSetColor ((g₁.find p).getD CellState.initial) (avg c₁ c₂ c₃) with
          | some st => some (g₁.setCellState p st, [], toSwitch ++ [p])
          | none => none
        | _, _, _ => none
      | _ => some (g₁, [], toSwitch)

/--
The `while` loop of `tick` (game.js lines 181–215), with an explicit fuel
argument making the recursion structural; `Grid.tick` supplies fuel that
provably suffices, so the fuel-exhaustion `none` is never reached.

State: the (materializing, color-mutating) grid, the worklist
`cellsToCheck` (popped from the back, like `Array.prototype.pop`; live
cells' neighbors are appended at the back, like `Array.prototype.concat`),
the identity set `cellsChecked` (object identity coincides with
coordinates, since `getCell` always returns the unique stored cell), and
the deferred flip list `cellsToSwitch`.
-/
def tickLoop (avg : RGB → RGB → RGB → RGB) :
    ℕ → Grid → List Coord → Finset Coord → List Coord →
    Option (Grid × Finset Coord × List Coord)
  | _, g, [], checked, toSwitch => some (g, checked, toSwitch)
  | 0, _, _ :: _, _, _ => none
  | fuel + 1, g, c :: cs, checked, toSwitch =>
    let p := (c :: cs).getLast (List.cons_ne_nil c cs)
    let rest := (c :: cs).dropLast
    if p ∈ checked then tickLoop avg fuel g rest checked toSwitch
    else
      match tickStep avg g p toSwitch with
      | none => none
      | some (g₁, enq, toSwitch') =>
        tickLoop avg fuel g₁ (rest ++ enq) (insert p checked) toSwitch'

/-- Fuel sufficient for `tickLoop`: each iteration pops one element, and
each newly checked (necessarily in-bounds) cell pushes at most eight
neighbors, so `|queue| + 9·|bounds|` pops always drain the queue. -/
def Grid.tickFuel (g : Grid) : ℕ :=
  g.liveList.length + 9 * ((g.maxX + 1).toNat * ((g.maxY + 1).toNat))

/-- `tick`'s evaluation phase: run the worklist to exhaustion, returning
the (materialized, birth-colored) grid, the checked set, and the deferred
flip list. -/
def Grid.tickTrace (g : Grid) (avg : RGB → RGB → RGB → RGB) :
    Option (Grid × Finset Coord × List Coord) :=
  tickLoop avg g.tickFuel g g.liveList ∅ []

/-- `tick`'s final phase (game.js lines 217–223): apply the collected
flips — `setDead` for live cells, `setAlive` for (now colored) dead
cells; `none` models `setAlive`'s color assertion failing. -/
def applyFlips : Grid → List Coord → Option Grid
  | g, [] => some g
  | g, p :: ps =>
    let st := (g.find p).getD CellState.initial
    if st.alive then applyFlips (g.setCellState p (cellSetDead st)) ps
    else
      match cellSetAlive st with
      | some st' => applyFlips (g.setCellState p st') ps
      | none => none

/--
`Grid.tick` (game.js lines 173–224).  The parameter `avg` models the
birth-color pipeline `space.lab.rgb(average of space.rgb.lab(cᵢ)).map(Math.round)`
(game.js lines 196–205): the `color-space` conversion code is an external
npm dependency, not part of this repository, so it is kept abstract; the
claims quantify over it (requiring, where needed, that it produce valid
RGB triplets, which the specification guarantees by calling its output an
RGB color).
-/
def Grid.tick (g : Grid) (avg : RGB → RGB → RGB → RGB) : Option Grid :=
  match g.tickTrace avg with
  | some (g₁, _, toSwitch) => applyFlips g₁ toSwitch
  | none => none

/-- The hypothesis on the color pipeline used by the safety claims:
valid inputs give a valid output.  Modelled from the spec: the `color-space`
conversion is not in `src/`; §4.3 says a birth's color is "converted back
to RGB and rounded to the nearest integer per channel", and §3 defines an
RGB color as three integers in `[0,255]`. -/
def ValidAvg (avg : RGB → RGB → RGB → RGB) : Prop :=
  ∀ a b c, ValidRGB a → ValidRGB b → ValidRGB c → ValidRGB (avg a b c)

/-- The pre-tick live Moore neighbors of `p`, in source order. -/
def Grid.liveNeighborCoords (g : Grid) (p : Coord) : List Coord :=
  (g.neighborCoords p).filter g.aliveAt

/-- The color a birth at `p` computes from the pre-tick snapshot: `avg`
of the three live neighbors' colors in neighbor order, when all three
are present. -/
def Grid.birthColorOpt (g : Grid) (avg : RGB → RGB → RGB → RGB) (p : Coord) :
    Option RGB :=
  match (g.liveNeighborCoords p).map g.colorAt with
  | [some c₁, some c₂, some c₃] => some (avg c₁ c₂ c₃)
  | _ => none

/--
The naive per-cell specification of one generation, following the spec's
words (§4.3 rules 1–2): every in-bounds cell evaluated against the
classical rule on the pre-tick snapshot; a live cell survives with its
color iff it has 2 or 3 live neighbors; a dead cell is born iff it has
exactly 3 live neighbors, colored by `avg` of their (pre-tick) colors in
neighbor order; any other dead cell is unchanged.
-/
def Grid.naiveCellNext (g : Grid) (avg : RGB → RGB → RGB → RGB) (p : Coord) :
    Bool × Option RGB :=
  let n := (g.liveNeighborCoords p).length
  if g.aliveAt p then
    if n < 2 ∨ 3 < n then (false, none) else (true, g.colorAt p)
  else if n = 3 then (true, g.birthColorOpt avg p)
  else (false, g.colorAt p)

/-- The naive whole-grid specification: in-bounds cells evaluated by the
classical rule, out-of-bounds positions untouched. -/
def Grid.naiveNext (g : Grid) (avg : RGB → RGB → RGB → RGB) (p : Coord) :
    Bool × Option RGB :=
  if g.inBounds p then g.naiveCellNext avg p else g.view p

/-- The condition under which a cell ends up on `cellsToSwitch`
(game.js lines 192–194, against the pre-tick snapshot `g`): a live cell
with fewer than 2 or more than 3 live neighbors, or a dead cell with
exactly 3. -/
def FlipRule (g : Grid) (p : Coord) : Prop :=
  if g.aliveAt p then
    (g.liveNeighborCoords p).length < 2 ∨ 3 < (g.liveNeighborCoords p).length
  else
    (g.liveNeighborCoords p).length = 3

instance (g : Grid) (p : Coord) : Decidable (FlipRule g p) := by
  unfold FlipRule; infer_instance

/-- The cells the sparse traversal visits: the live cells and the
in-bounds neighbors of live cells. -/
def Grid.Evaluated (g : Grid) (p : Coord) : Prop :=
  g.aliveAt p = true ∨ ∃ q, g.aliveAt q = true ∧ p ∈ g.neighborCoords q

/-- The finite set of in-bounds coordinates, for fuel counting. -/
def Grid.boundsFinset (g : Grid) : Finset Coord :=
  Finset.Icc 0 g.maxX ×ˢ Finset.Icc 0 g.maxY

/--
The invariant of `tickLoop` relative to the pre-tick snapshot `g₀`:
aliveness never changes during the loop, colors change only on dead cells
already marked for birth, `cellsToSwitch` holds exactly the checked cells
satisfying the flip rule (each once), everything queued or checked is an
in-bounds cell of the evaluation frontier, and every live cell — and every
neighbor of a checked live cell — is checked or still queued.
-/
structure LoopInv (g₀ : Grid) (avg : RGB → RGB → RGB → RGB) (g : Grid)
    (queue : List Coord) (checked : Finset Coord) (toSwitch : List Coord) : Prop where
  boundsX : g.maxX = g₀.maxX
  boundsY : g.maxY = g₀.maxY
  wf : g.WF
  alive_eq : ∀ p, g.aliveAt p = g₀.aliveAt p
  color_eq : ∀ p, (p ∈ toSwitch → g₀.aliveAt p = true) → g.colorAt p = g₀.colorAt p
  born : ∀ p ∈ toSwitch, g₀.aliveAt p = false →
    ∃ c, g₀.birthColorOpt avg p = some c ∧ g.colorAt p = some c ∧ ValidRGB c
  nodup : toSwitch.Nodup
  switch_checked : ∀ p ∈ toSwitch, p ∈ checked
  flip : ∀ p ∈ toSwitch, FlipRule g₀ p
  noflip : ∀ p ∈ checked, p ∉ toSwitch → ¬FlipRule g₀ p
  queue_bounds : ∀ p ∈ queue, g₀.inBounds p
  checked_bounds : ∀ p ∈ checked, g₀.inBounds p
  queue_eval : ∀ p ∈ queue, g₀.Evaluated p
  checked_eval : ∀ p ∈ checked, g₀.Evaluated p
  live_covered : ∀ p, g₀.aliveAt p = true → p ∈ checked ∨ p ∈ queue
  nbrs_covered : ∀ p ∈ checked, g₀.aliveAt p = true →
    ∀ r ∈ g₀.neighborCoords p, r ∈ checked ∨ r ∈ queue

/-- Decimal digits of a natural number (JS `Number.prototype.toString`
for a nonnegative integer value). -/
def natChars (n : ℕ) : List Char := Nat.toDigits 10 n

/-- Decimal rendering of an integer (negative values never occur for
stored coordinates or color channels, but the sign case keeps the
function total and faithful). -/
def intChars (n : ℤ) : List Char :=
  if n < 0 then '-' :: natChars (-n).toNat else natChars n.toNat

/-- `("0" + component).slice(-2)` (game.js lines 236–238): prepend a zero
and keep the last two characters. -/
def pad2 (n : ℕ) : List Char :=
  let s := '0' :: natChars n
  s.drop (s.length - 2)

/-- The `HHMMSS` timestamp of `serialize` (game.js lines 235–239). -/
def timeChars (h m s : ℕ) : List Char := pad2 h ++ pad2 m ++ pad2 s

/-- `Array.prototype.join` with a single-character separator. -/
def joinSep (sep : Char) : List (List Char) → List Char
  | [] => []
  | [x] => x
  | x :: y :: xs => x ++ sep :: joinSep sep (y :: xs)

/-- One live cell's serialized segment (game.js lines 244–249):
`[x, y, color.join(",")].join(",")`, i.e. `x,y,r,g,b`. -/
def segChars (p : Coord) (c : RGB) : List Char :=
  joinSep ','
    [intChars p.1, intChars p.2, joinSep ',' [intChars c.1, intChars c.2.1, intChars c.2.2]]

/--
`Grid.serialize` (game.js lines 234–253), with the wall-clock reading
passed in as `(h, m, s)`.  The live stored cells (in `Map` insertion
order) are rendered as pipe-joined segments; if the joined cell string is
nonempty it is appended to the timestamp with a pipe, else the timestamp
alone is returned.  `none` models the `cell.getColor().join` call
crashing on a live cell with a `null` color (impossible on well-formed
grids).
-/
def Grid.serializeO (g : Grid) (h m s : ℕ) : Option (List Char) :=
  let date := timeChars h m s
  (((g.cells.filter fun e => e.2.alive).mapM
      fun (e : Coord × CellState) => e.2.color.map fun c => segChars e.1 c).map
    fun segs =>
      let cellsStr := joinSep '|' segs
      if cellsStr.length > 0 then date ++ '|' :: cellsStr else date)

/--
The wire format as the spec states it (§6): the `HHMMSS` timestamp
followed by one `x,y,r,g,b` segment per currently-alive cell, all
pipe-separated, with no trailing pipe when no cell is alive.  This is the
spec-side definition for the serialization claim; the color of a live
cell is present on every well-formed grid, `getD` merely totalizes.
-/
def Grid.serializeSpec (g : Grid) (h m s : ℕ) : List Char :=
  joinSep '|'
    (timeChars h m s ::
      (g.cells.filter fun e => e.2.alive).map fun e => segChars e.1 (e.2.color.getD (0, 0, 0)))

/-- The set of all in-bounds coordinates (game.js lines 269–278), in its
insertion order: `y` outer from `0` to `maxY`, `x` inner from `0` to
`maxX`. -/
def Grid.allCoordsList (g : Grid) : List Coord :=
  (List.range (g.maxY + 1).toNat).flatMap fun y =>
    (List.range (g.maxX + 1).toNat).map fun x => (Int.ofNat x, Int.ofNat y)

/-- The coordinates surviving `getAllDeadCells`'s deletion pass
(game.js lines 284–290): all in-bounds coordinates minus those of live
stored cells, in `allCoordinates` insertion order. -/
def Grid.deadCoords (g : Grid) : List Coord :=
  g.allCoordsList.filter fun p => !g.aliveAt p

/-- `getAllDeadCells` (game.js lines 284–296): the dead coordinates, with
the `.map(getCell)` pass materializing each of them (the string
round-trip through `toString`/`parseInt` is the identity on coordinate
pairs). -/
def Grid.getAllDeadCellsO (g : Grid) : Option (List Coord × Grid) :=
  (g.getCellsO g.deadCoords).map fun r => (g.deadCoords, r.2)

/-- The cell lists of all variations centered at `center`
(`cell.getCoordinates().addOffsets(variation).map(this.getCell)`,
game.js lines 314–315), threading the materializing grid. -/
def variationsCellsO : Grid → List (List (ℤ × ℤ)) → Coord →
    Option (List (List Coord) × Grid)
  | g, [], _ => some ([], g)
  | g, v :: vs, center =>
    (g.getCellsO (addOffsets center v)).bind fun r =>
      (variationsCellsO r.2 vs center).map fun r' =>
        (addOffsets center v :: r'.1, r'.2)

/-- `filterValidVariations` (game.js lines 313–322): keep the variations
all of whose cells are currently dead. -/
def filterValidVariationsO (g : Grid) (variations : List (List (ℤ × ℤ)))
    (center : Coord) : Option (List (List Coord) × Grid) :=
  (variationsCellsO g variations center).map fun r =>
    (r.1.filter fun vr => vr.all fun q => !r.2.aliveAt q, r.2)

/--
The `while` loop of `tryInstantiatePattern` (game.js lines 333–339), with
`Math.random` modelled by the stream `rand` (each call consumes one
value; `randomPop` at the `k`-th call removes index `rand k % length`,
which ranges over exactly the indices `Math.floor(Math.random() * length)`
can produce).  Fuel makes the recursion structural; the caller supplies
the candidate count, which suffices since each iteration removes one
candidate.  Returns the chosen variation's cells, or `none` inside `some`
when the candidates are exhausted.
-/
def placeLoop (rand : ℕ → ℕ) (variations : List (List (ℤ × ℤ))) :
    ℕ → ℕ → Grid → List Coord → Option (Option (List Coord) × Grid)
  | _, _, g, [] => some (none, g)
  | 0, _, _, _ :: _ => none
  | fuel + 1, k, g, c :: cs =>
    match filterValidVariationsO g variations
        ((c :: cs).getD (rand k % (c :: cs).length) c) with
    | none => none
    | some (valid, g₁) =>
      if valid.length > 0 then
        some (some (valid.getD (rand (k + 1) % valid.length) []), g₁)
      else
        placeLoop rand variations fuel (k + 1) g₁
          ((c :: cs).eraseIdx (rand k % (c :: cs).length))

/-- The write phase of `tryInstantiatePattern` (game.js lines 341–345):
`cell.setColor(color).setAlive()` on each chosen cell, immediately. -/
def setPatternCellsO (color : RGB) : Grid → List Coord → Option Grid
  | g, [] => some g
  | g, p :: ps =>
    match cellSetColor ((g.find p).getD CellState.initial) color with
    | none => none
    | some st =>
      match cellSetAlive st with
      | some st' => setPatternCellsO color (g.setCellState p st') ps
      | none => none

/-- `tryInstantiatePattern` (game.js lines 312–347): draw candidates
without replacement until a fully-dead variation is found or the
candidates are exhausted; on success write the pattern synchronously. -/
def tryInstantiatePatternO (g : Grid) (deadCells : List Coord)
    (variations : List (List (ℤ × ℤ))) (color : RGB) (rand : ℕ → ℕ) : Option Grid :=
  match placeLoop rand variations deadCells.length 0 g deadCells with
  | none => none
  | some (none, g₁) => some g₁
  | some (some cells, g₁) => setPatternCellsO color g₁ cells

/-- The three pattern generators of the source. -/
inductive Pattern where
  | block
  | blinker
  | glider
deriving DecidableEq, Repr

/-- Each pattern's variations, as offset lists (game.js lines 359,
372–375, 388–393). -/
def Pattern.variations : Pattern → List (List (ℤ × ℤ))
  | .block => [[(0, 0), (1, 0), (0, 1), (1, 1)]]
  | .blinker => [[(-1, 0), (0, 0), (1, 0)], [(0, -1), (0, 0), (0, 1)]]
  | .glider =>
    [[(0, -1), (1, 0), (-1, 1), (0, 1), (1, 1)],
     [(-1, -1), (1, -1), (0, 0), (1, 0), (0, 1)],
     [(-1, 0), (0, 1), (1, 1), (1, 0), (1, -1)],
     [(-1, -1), (0, 0), (1, 0), (-1, 1), (0, 1)]]

/-- Each pattern's candidate-center filter (game.js lines 356, 369, 385):
a block excludes the rightmost column and bottom row, a blinker or glider
excludes all border cells. -/
def Pattern.eligible (pat : Pattern) (g : Grid) (p : Coord) : Bool :=
  match pat with
  | .block => decide (p.1 < g.maxX ∧ p.2 < g.maxY)
  | .blinker => decide (0 < p.1 ∧ p.1 < g.maxX ∧ 0 < p.2 ∧ p.2 < g.maxY)
  | .glider => decide (0 < p.1 ∧ p.1 < g.maxX ∧ 0 < p.2 ∧ p.2 < g.maxY)

/-- The common shape of `tryGenerateBlock`/`Blinker`/`Glider` (game.js
lines 349–394): filter the dead cells by the pattern's eligibility test,
then `tryInstantiatePattern`. -/
def Grid.tryGeneratePattern (g : Grid) (pat : Pattern) (color : RGB)
    (rand : ℕ → ℕ) : Option Grid :=
  g.getAllDeadCellsO.bind fun r =>
    tryInstantiatePatternO r.2 (r.1.filter (pat.eligible g)) pat.variations color rand

/-- `Grid.tryGenerateBlock` (game.js lines 349–360). -/
def Grid.tryGenerateBlock (g : Grid) (color : RGB) (rand : ℕ → ℕ) : Option Grid :=
  g.tryGeneratePattern .block color rand

/-- `Grid.tryGenerateBlinker` (game.js lines 362–376). -/
def Grid.tryGenerateBlinker (g : Grid) (color : RGB) (rand : ℕ → ℕ) : Option Grid :=
  g.tryGeneratePattern .blinker color rand

/-- `Grid.tryGenerateGlider` (game.js lines 378–394). -/
def Grid.tryGenerateGlider (g : Grid) (color : RGB) (rand : ℕ → ℕ) : Option Grid :=
  g.tryGeneratePattern .glider color rand

/-! ## Basic lemmas about storage and views -/

theorem lookupCell_setEntry (l : List (Coord × CellState)) (p : Coord)
    (st : CellState) (q : Coord) :
    lookupCell (setEntry l p st) q = if p = q then some st else lookupCell l q := by
  induction l with
  | nil => simp [setEntry, lookupCell]
  | cons e es ih =>
    simp only [setEntry]
    by_cases hep : e.1 = p
    · rw [if_pos hep]
      by_cases hq : p = q
      · simp [lookupCell, hq]
      · have h1 : e.1 ≠ q := by rw [hep]; exact hq
        simp [lookupCell, hq, h1]
    · rw [if_neg hep]
      by_cases hq : e.1 = q
      · have hpq : p ≠ q := by
          intro h
          exact hep (h ▸ hq)
        simp [lookupCell, hq, hpq]
      · simp [lookupCell, hq, ih]

theorem keys_setEntry (l : List (Coord × CellState)) (p : Coord) (st : CellState) :
    ((setEntry l p st).map Prod.fst) =
      if p ∈ l.map Prod.fst then l.map Prod.fst else l.map Prod.fst ++ [p] := by
  induction l with
  | nil => simp [setEntry]
  | cons e es ih =>
    simp only [setEntry]
    by_cases hep : e.1 = p
    · simp [hep]
    · have h1 : ¬ p = e.1 := by
        intro h
        exact hep h.symm
      simp only [if_neg hep, List.map_cons, ih]
      by_cases hmem : p ∈ es.map Prod.fst <;> simp [hmem, h1]

theorem mem_setEntry {l : List (Coord × CellState)} {p : Coord} {st : CellState}
    {e : Coord × CellState} (h : e ∈ setEntry l p st) : e = (p, st) ∨ e ∈ l := by
  induction l with
  | nil => simpa [setEntry] using h
  | cons f fs ih =>
    simp only [setEntry] at h
    by_cases hfp : f.1 = p
    · rw [if_pos hfp] at h
      rcases List.mem_cons.1 h with rfl | h
      · exact Or.inl rfl
      · exact Or.inr (List.mem_cons_of_mem _ h)
    · rw [if_neg hfp] at h
      rcases List.mem_cons.1 h with rfl | h
      · exact Or.inr (List.mem_cons_self _ _)
      · rcases ih h with h | h
        · exact Or.inl h
        · exact Or.inr (List.mem_cons_of_mem _ h)

theorem keys_setEntry_nodup {l : List (Coord × CellState)} (p : Coord) (st : CellState)
    (h : (l.map Prod.fst).Nodup) : ((setEntry l p st).map Prod.fst).Nodup := by
  rw [keys_setEntry]
  by_cases hmem : p ∈ l.map Prod.fst
  · simpa [hmem]
  · have hdisj : (l.map Prod.fst).Disjoint [p] := by
      intro a ha hap
      rw [List.mem_singleton] at hap
      subst hap
      exact hmem ha
    simpa [hmem] using h.append (List.nodup_singleton p) hdisj

theorem mem_of_lookupCell {l : List (Coord × CellState)} {p : Coord} {st : CellState}
    (h : lookupCell l p = some st) : (p, st) ∈ l := by
  induction l with
  | nil => simp [lookupCell] at h
  | cons e es ih =>
    by_cases hep : e.1 = p
    · simp only [lookupCell, if_pos hep] at h
      cases h
      subst hep
      exact List.mem_cons.2 (Or.inl Prod.mk.eta)
    · simp only [lookupCell, if_neg hep] at h
      exact List.mem_cons_of_mem _ (ih h)

theorem lookupCell_eq_none {l : List (Coord × CellState)} {p : Coord}
    (h : p ∉ l.map Prod.fst) : lookupCell l p = none := by
  induction l with
  | nil => rfl
  | cons e es ih =>
    simp only [List.map_cons, List.mem_cons] at h
    push_neg at h
    have h1 : e.1 ≠ p := by
      intro hh
      exact h.1 hh.symm
    simp [lookupCell, h1, ih h.2]

theorem lookupCell_of_mem {l : List (Coord × CellState)} {p : Coord} {st : CellState}
    (hnd : (l.map Prod.fst).Nodup) (h : (p, st) ∈ l) : lookupCell l p = some st := by
  induction l with
  | nil => simp at h
  | cons e es ih =>
    simp only [List.map_cons, List.nodup_cons] at hnd
    rcases List.mem_cons.1 h with h | h
    · rw [← h]
      simp [lookupCell]
    · have hep : e.1 ≠ p := by
        intro hh
        apply hnd.1
        rw [hh]
        exact List.mem_map_of_mem Prod.fst h
      simp [lookupCell, hep, ih hnd.2 h]

@[simp] theorem Grid.maxX_setCellState (g : Grid) (p : Coord) (st : CellState) :
    (g.setCellState p st).maxX = g.maxX := rfl

@[simp] theorem Grid.maxY_setCellState (g : Grid) (p : Coord) (st : CellState) :
    (g.setCellState p st).maxY = g.maxY := rfl

theorem Grid.find_setCellState (g : Grid) (p : Coord) (st : CellState) (q : Coord) :
    (g.setCellState p st).find q = if p = q then some st else g.find q :=
  lookupCell_setEntry _ _ _ _

theorem Grid.aliveAt_setCellState (g : Grid) (p : Coord) (st : CellState) (q : Coord) :
    (g.setCellState p st).aliveAt q = if p = q then st.alive else g.aliveAt q := by
  simp only [Grid.aliveAt, Grid.find_setCellState]
  split <;> rfl

theorem Grid.colorAt_setCellState (g : Grid) (p : Coord) (st : CellState) (q : Coord) :
    (g.setCellState p st).colorAt q = if p = q then st.color else g.colorAt q := by
  simp only [Grid.colorAt, Grid.find_setCellState]
  split <;> rfl

theorem Grid.inBounds_congr {g g' : Grid} (hx : g'.maxX = g.maxX)
    (hy : g'.maxY = g.maxY) (p : Coord) : g'.inBounds p ↔ g.inBounds p := by
  simp [Grid.inBounds, hx, hy]

theorem Grid.getD_find (g : Grid) (p : Coord) :
    (g.find p).getD CellState.initial = ⟨g.aliveAt p, g.colorAt p⟩ := by
  simp only [Grid.aliveAt, Grid.colorAt]
  cases g.find p <;> rfl

theorem Grid.WF_setCellState {g : Grid} (hWF : g.WF) {p : Coord} (hp : g.inBounds p)
    {st : CellState} (hst : st.alive = true → st.ValidColor) :
    (g.setCellState p st).WF := by
  obtain ⟨hnd, hbd, hcol⟩ := hWF
  refine ⟨keys_setEntry_nodup p st hnd, ?_, ?_⟩
  · intro e he
    rcases mem_setEntry he with rfl | he
    · exact hp
    · exact hbd _ he
  · intro e he
    rcases mem_setEntry he with rfl | he
    · exact hst
    · exact hcol _ he

theorem CellState.eta (st : CellState) : (⟨st.alive, st.color⟩ : CellState) = st := rfl

theorem Grid.getCellO_spec {g : Grid} {p : Coord} (hp : g.inBounds p) :
    ∃ g', g.getCellO p = some (⟨g.aliveAt p, g.colorAt p⟩, g') ∧
      g'.maxX = g.maxX ∧ g'.maxY = g.maxY ∧
      (∀ q, g'.aliveAt q = g.aliveAt q) ∧ (∀ q, g'.colorAt q = g.colorAt q) ∧
      (g.WF → g'.WF) ∧
      g'.find p = some ⟨g.aliveAt p, g.colorAt p⟩ := by
  unfold Grid.getCellO
  rw [if_pos hp]
  cases hfind : g.find p with
  | some st =>
    refine ⟨g, ?_, rfl, rfl, fun _ => rfl, fun _ => rfl, id, ?_⟩ <;>
      simp [Grid.aliveAt, Grid.colorAt, hfind, CellState.eta]
  | none =>
    have ha : g.aliveAt p = false := by simp [Grid.aliveAt, hfind]
    have hc : g.colorAt p = none := by simp [Grid.colorAt, hfind]
    refine ⟨g.setCellState p CellState.initial, by rw [ha, hc]; rfl, rfl, rfl, ?_, ?_, ?_, ?_⟩
    · intro q
      rw [Grid.aliveAt_setCellState]
      split
      · next hpq => subst hpq; rw [ha]; rfl
      · rfl
    · intro q
      rw [Grid.colorAt_setCellState]
      split
      · next hpq => subst hpq; rw [hc]; rfl
      · rfl
    · intro hWF
      exact Grid.WF_setCellState hWF hp (by intro h; simp [CellState.initial] at h)
    · rw [Grid.find_setCellState, if_pos rfl, ha, hc]; rfl

theorem Grid.getCellsO_spec :
    ∀ (ps : List Coord) (g : Grid), (∀ p ∈ ps, g.inBounds p) →
    ∃ sts g', g.getCellsO ps = some (sts, g') ∧
      g'.maxX = g.maxX ∧ g'.maxY = g.maxY ∧
      (∀ q, g'.aliveAt q = g.aliveAt q) ∧ (∀ q, g'.colorAt q = g.colorAt q) ∧
      (g.WF → g'.WF)
  | [], g, _ => ⟨[], g, rfl, rfl, rfl, fun _ => rfl, fun _ => rfl, id⟩
  | p :: ps, g, hb => by
    obtain ⟨g₁, hget, hx₁, hy₁, ha₁, hc₁, hwf₁, _⟩ :=
      Grid.getCellO_spec (hb p (List.mem_cons_self p ps))
    have hb₁ : ∀ q ∈ ps, g₁.inBounds q := by
      intro q hq
      exact (Grid.inBounds_congr hx₁ hy₁ q).2 (hb q (List.mem_cons_of_mem p hq))
    obtain ⟨sts, g₂, hrec, hx₂, hy₂, ha₂, hc₂, hwf₂⟩ := Grid.getCellsO_spec ps g₁ hb₁
    refine ⟨(⟨g.aliveAt p, g.colorAt p⟩ : CellState) :: sts, g₂, ?_, hx₂.trans hx₁, hy₂.trans hy₁,
      fun q => (ha₂ q).trans (ha₁ q), fun q => (hc₂ q).trans (hc₁ q),
      fun h => hwf₂ (hwf₁ h)⟩
    simp [Grid.getCellsO, hget, hrec]

theorem Grid.neighborCoords_inBounds (g : Grid) (p : Coord) :
    ∀ q ∈ g.neighborCoords p, g.inBounds q := by
  intro q hq
  rw [Grid.neighborCoords, List.mem_filter] at hq
  exact of_decide_eq_true hq.2

theorem Grid.neighborsO_spec (g : Grid) (p : Coord) :
    ∃ g', g.neighborsO p = some (g.neighborCoords p, g') ∧
      g'.maxX = g.maxX ∧ g'.maxY = g.maxY ∧
      (∀ q, g'.aliveAt q = g.aliveAt q) ∧ (∀ q, g'.colorAt q = g.colorAt q) ∧
      (g.WF → g'.WF) := by
  obtain ⟨sts, g', hget, hx, hy, ha, hc, hwf⟩ :=
    Grid.getCellsO_spec (g.neighborCoords p) g (g.neighborCoords_inBounds p)
  exact ⟨g', by simp [Grid.neighborsO, hget], hx, hy, ha, hc, hwf⟩

theorem Grid.neighborCoords_congr {g g' : Grid} (hx : g'.maxX = g.maxX)
    (hy : g'.maxY = g.maxY) (p : Coord) :
    g'.neighborCoords p = g.neighborCoords p := by
  unfold Grid.neighborCoords
  apply List.filter_congr
  intro q _
  rw [decide_eq_decide]
  exact Grid.inBounds_congr hx hy q

/-! ## Claim C10: `getCell` is an idempotent, materializing read -/

/--
C10: for every in-bounds coordinate, two `getCell` calls with no
intervening writes return the same cell with the same alive status and
color; a never-touched coordinate yields a dead, colorless cell, which is
stored so that every later `getCell` returns that same owned cell.
-/
theorem getCell_idempotent_stores (g : Grid) (p : Coord) (hp : g.inBounds p) :
    ∃ st g₁, g.getCellO p = some (st, g₁) ∧
      g₁.getCellO p = some (st, g₁) ∧
      (g.find p = none → st = CellState.initial) ∧
      g₁.find p = some st ∧
      st.alive = g.aliveAt p ∧ st.color = g.colorAt p := by
  unfold Grid.getCellO
  rw [if_pos hp]
  cases hf : g.find p with
  | some st =>
    refine ⟨st, g, rfl, ?_, (fun h => absurd h (by simp)), hf,
      (by simp [Grid.aliveAt, hf]), (by simp [Grid.colorAt, hf])⟩
    rw [if_pos hp, hf]
  | none =>
    refine ⟨CellState.initial, g.setCellState p CellState.initial, rfl, ?_, fun _ => rfl,
      ?_, (by simp [Grid.aliveAt, hf, CellState.initial]),
      (by simp [Grid.colorAt, hf, CellState.initial])⟩
    · rw [if_pos ((@Grid.inBounds_congr g (g.setCellState p CellState.initial) rfl rfl p).2 hp),
        Grid.find_setCellState, if_pos rfl]
    · rw [Grid.find_setCellState, if_pos rfl]

/-- Witness for C10 at a concrete grid and coordinate. -/
theorem getCell_idempotent_stores_witness :
    ∃ st g₁, (⟨2, 2, []⟩ : Grid).getCellO (1, 1) = some (st, g₁) ∧
      g₁.getCellO (1, 1) = some (st, g₁) ∧
      ((⟨2, 2, []⟩ : Grid).find (1, 1) = none → st = CellState.initial) ∧
      g₁.find (1, 1) = some st ∧
      st.alive = (⟨2, 2, []⟩ : Grid).aliveAt (1, 1) ∧
      st.color = (⟨2, 2, []⟩ : Grid).colorAt (1, 1) :=
  getCell_idempotent_stores ⟨2, 2, []⟩ (1, 1) (by decide)

/-! ## Claim C5: the `Coordinates` constructor (corrected) -/

/--
C5 counterexample: the claim says construction fails when a coordinate is
negative, but `Coordinates` only asserts `Number.isInteger` (game.js
lines 14–15): `new Coordinates(-1, 0)` succeeds and returns the given
values.  (The code relies on this: `addOffsets` builds out-of-bounds —
including negative — `Coordinates` before `neighbors` filters them,
game.js lines 415–421.)
-/
theorem coordinatesNew_neg_succeeds :
    coordinatesNew (-1) 0 = some (-1, 0) ∧ (-1 : ℚ) < 0 := by
  constructor
  · rfl
  · norm_num

/--
C5 (amended): construction fails iff `x` or `y` is non-integral (negative
integers are accepted); on success `getX`/`getY` return exactly the given
values.
-/
theorem coordinatesNew_spec (x y : ℚ) :
    (coordinatesNew x y = none ↔ ¬(x.den = 1 ∧ y.den = 1)) ∧
    (∀ a b : ℤ, coordinatesNew x y = some (a, b) → (a : ℚ) = x ∧ (b : ℚ) = y) := by
  unfold coordinatesNew
  constructor
  · split
    · next h => simp [h]
    · next h => simp [h]
  · intro a b h
    split at h
    · next hint =>
      have hab : x.num = a ∧ y.num = b := by
        rw [Option.some_inj, Prod.mk.injEq] at h
        exact h
      constructor
      · rw [← hab.1]
        exact (Rat.den_eq_one_iff x).1 hint.1
      · rw [← hab.2]
        exact (Rat.den_eq_one_iff y).1 hint.2
    · cases h

/-- Witness for C5's amended statement at concrete integral inputs. -/
theorem coordinatesNew_spec_witness :
    ((5 : ℤ) : ℚ) = (5 : ℚ) ∧ ((7 : ℤ) : ℚ) = (7 : ℚ) :=
  (coordinatesNew_spec 5 7).2 5 7 (by norm_num [coordinatesNew])

/-! ## Claim C3: the cell invariant (corrected) -/

/--
C3 counterexample: the claim's "dead ⇒ color absent" direction fails —
`setColor` colors a cell without touching its alive flag (game.js lines
71–79), so one `setColor` on a fresh (dead) cell yields a dead cell with
a color present.  (`tick` itself relies on this, coloring a dead cell
before its deferred `setAlive`, game.js lines 201–206.)
-/
theorem setColor_dead_cell_colored :
    runCellOps CellState.initial [CellOp.setColor (10, 20, 30)] =
      some ⟨false, some (10, 20, 30)⟩ := by decide

/-- Invariant preservation for a single well-started cell state: every
stored color is valid, and a live cell has a color. -/
theorem runCellOps_invariant :
    ∀ (ops : List CellOp) (s₀ s : CellState),
    (∀ c, s₀.color = some c → ValidRGB c) → (s₀.alive = true → s₀.color ≠ none) →
    runCellOps s₀ ops = some s →
    (∀ c, s.color = some c → ValidRGB c) ∧ (s.alive = true → s.color ≠ none)
  | [], s₀, s, hcol, halive, h => by
    rw [runCellOps, Option.some_inj] at h
    subst h
    exact ⟨hcol, halive⟩
  | op :: ops, s₀, s, hcol, halive, h => by
    rw [runCellOps] at h
    cases op with
    | setColor c =>
      rw [runCellOp, cellSetColor] at h
      split at h
      · next hv =>
        rw [Option.some_bind] at h
        refine runCellOps_invariant ops _ s ?_ (by intro _; simp) h
        intro c' hc'
        simp only [Option.some_inj] at hc'
        exact hc' ▸ hv
      · rw [Option.none_bind] at h
        cases h
    | setAlive =>
      rw [runCellOp, cellSetAlive] at h
      cases hc : s₀.color with
      | none =>
        rw [hc, Option.none_bind] at h
        cases h
      | some c =>
        rw [hc, Option.some_bind] at h
        refine runCellOps_invariant ops _ s ?_ (by intro _; simp) h
        intro c' hc'
        simp only [Option.some_inj] at hc'
        exact hc' ▸ hcol c hc
    | setDead =>
      rw [runCellOp, Option.some_bind] at h
      refine runCellOps_invariant ops _ s ?_ (by intro ha; simp [cellSetDead] at ha) h
      intro c' hc'
      simp [cellSetDead] at hc'

/--
C3 (amended): after any completed sequence of `setColor`/`setAlive`/
`setDead` from a fresh cell, a live cell has a valid color (three
integers in `[0,255]`); `setAlive` fails when no color is present; and
`setDead` leaves the cell dead with its color cleared.  (The claim's
converse "dead ⇒ color absent" is dropped: `setColor` colors dead cells.)
-/
theorem cell_invariant_ops :
    (∀ (ops : List CellOp) (s : CellState),
      runCellOps CellState.initial ops = some s → s.alive = true →
      ∃ c, s.color = some c ∧ ValidRGB c) ∧
    (∀ s : CellState, s.color = none → cellSetAlive s = none) ∧
    (∀ s : CellState, (cellSetDead s).alive = false ∧ (cellSetDead s).color = none) := by
  refine ⟨?_, ?_, fun s => ⟨rfl, rfl⟩⟩
  · intro ops s h halive
    obtain ⟨hval, hlive⟩ := runCellOps_invariant ops CellState.initial s
      (by intro c hc; simp [CellState.initial] at hc)
      (by intro h'; simp [CellState.initial] at h') h
    obtain ⟨c, hc⟩ := Option.ne_none_iff_exists'.1 (hlive halive)
    exact ⟨c, hc, hval c hc⟩
  · intro s hs
    rw [cellSetAlive, hs]

/-- Witness for C3's amended statement at concrete operation sequences. -/
theorem cell_invariant_ops_witness :
    (∃ c, (⟨true, some ((10 : ℤ), (20 : ℤ), (30 : ℤ))⟩ : CellState).color = some c ∧ ValidRGB c) ∧
    cellSetAlive ⟨false, none⟩ = none ∧
    ((cellSetDead ⟨true, some (1, 2, 3)⟩).alive = false ∧
      (cellSetDead ⟨true, some (1, 2, 3)⟩).color = none) :=
  ⟨cell_invariant_ops.1 [.setColor (10, 20, 30), .setAlive] ⟨true, some (10, 20, 30)⟩
      (by decide) rfl,
    cell_invariant_ops.2.1 ⟨false, none⟩ rfl,
    cell_invariant_ops.2.2 ⟨true, some (1, 2, 3)⟩⟩

/-! ## Claim C9: the serialization format -/

theorem digitChar_isDigit : ∀ m : ℕ, m < 10 → (Nat.digitChar m).isDigit = true := by decide

theorem toDigitsCore_digits :
    ∀ (fuel n : ℕ) (ds : List Char), (∀ c ∈ ds, c.isDigit = true) →
    ∀ c ∈ Nat.toDigitsCore 10 fuel n ds, c.isDigit = true := by
  intro fuel
  induction fuel with
  | zero => intro n ds hds; simpa [Nat.toDigitsCore] using hds
  | succ fuel ih =>
    intro n ds hds c hc
    have hd : (Nat.digitChar (n % 10)).isDigit = true :=
      digitChar_isDigit _ (Nat.mod_lt _ (by omega))
    have hds' : ∀ x ∈ Nat.digitChar (n % 10) :: ds, x.isDigit = true := by
      intro x hx
      rcases List.mem_cons.1 hx with rfl | hx
      · exact hd
      · exact hds x hx
    rw [Nat.toDigitsCore] at hc
    split at hc
    · exact hds' c hc
    · exact ih _ _ hds' c hc

theorem toDigitsCore_ne_nil :
    ∀ (fuel n : ℕ) (ds : List Char), Nat.toDigitsCore 10 (fuel + 1) n ds ≠ [] := by
  intro fuel
  induction fuel with
  | zero =>
    intro n ds
    rw [Nat.toDigitsCore]
    split <;> simp [Nat.toDigitsCore]
  | succ fuel ih =>
    intro n ds
    rw [Nat.toDigitsCore]
    split
    · simp
    · exact ih _ _

theorem natChars_digits (n : ℕ) : ∀ c ∈ natChars n, c.isDigit = true :=
  toDigitsCore_digits _ _ [] (by simp)

theorem natChars_ne_nil (n : ℕ) : natChars n ≠ [] :=
  toDigitsCore_ne_nil n n []

theorem intChars_chars (n : ℤ) : ∀ c ∈ intChars n, c.isDigit = true ∨ c = '-' := by
  intro c hc
  rw [intChars] at hc
  split at hc
  · rcases List.mem_cons.1 hc with rfl | hc
    · exact Or.inr rfl
    · exact Or.inl (natChars_digits _ c hc)
  · exact Or.inl (natChars_digits _ c hc)

theorem intChars_ne_nil (n : ℤ) : intChars n ≠ [] := by
  rw [intChars]
  split
  · simp
  · exact natChars_ne_nil _

theorem pad2_length (n : ℕ) : (pad2 n).length = 2 := by
  have h1 : 1 ≤ (natChars n).length :=
    List.length_pos.2 (natChars_ne_nil n)
  simp only [pad2, List.length_drop, List.length_cons]
  omega

theorem pad2_digits (n : ℕ) : ∀ c ∈ pad2 n, c.isDigit = true := by
  intro c hc
  have : c ∈ '0' :: natChars n := List.mem_of_mem_drop hc
  rcases List.mem_cons.1 this with rfl | hmem
  · rfl
  · exact natChars_digits n c hmem

theorem timeChars_length (h m s : ℕ) : (timeChars h m s).length = 6 := by
  simp [timeChars, pad2_length]

theorem timeChars_digits (h m s : ℕ) : ∀ c ∈ timeChars h m s, c.isDigit = true := by
  intro c hc
  rw [timeChars] at hc
  rcases List.mem_append.1 hc with hc | hc
  · rcases List.mem_append.1 hc with hc | hc
    · exact pad2_digits _ c hc
    · exact pad2_digits _ c hc
  · exact pad2_digits _ c hc

theorem mem_joinSep {sep : Char} :
    ∀ {ls : List (List Char)} {c : Char}, c ∈ joinSep sep ls →
    c = sep ∨ ∃ l ∈ ls, c ∈ l := by
  intro ls
  match ls with
  | [] => intro c hc; simp [joinSep] at hc
  | [x] =>
    intro c hc
    rw [joinSep] at hc
    exact Or.inr ⟨x, List.mem_singleton_self x, hc⟩
  | x :: y :: xs =>
    intro c hc
    rw [joinSep] at hc
    rcases List.mem_append.1 hc with hc | hc
    · exact Or.inr ⟨x, List.mem_cons_self _ _, hc⟩
    · rcases List.mem_cons.1 hc with rfl | hc
      · exact Or.inl rfl
      · rcases mem_joinSep hc with rfl | ⟨l, hl, hcl⟩
        · exact Or.inl rfl
        · exact Or.inr ⟨l, List.mem_cons_of_mem _ hl, hcl⟩

theorem segChars_no_pipe (p : Coord) (col : RGB) : ∀ c ∈ segChars p col, c ≠ '|' := by
  intro c hc
  have hd : c.isDigit = true ∨ c = '-' ∨ c = ',' := by
    rw [segChars] at hc
    rcases mem_joinSep hc with rfl | ⟨l, hl, hcl⟩
    · exact Or.inr (Or.inr rfl)
    · simp only [List.mem_cons, List.not_mem_nil, or_false] at hl
      rcases hl with rfl | rfl | rfl
      · rcases intChars_chars _ c hcl with h | h
        · exact Or.inl h
        · exact Or.inr (Or.inl h)
      · rcases intChars_chars _ c hcl with h | h
        · exact Or.inl h
        · exact Or.inr (Or.inl h)
      · rcases mem_joinSep hcl with rfl | ⟨l', hl', hcl'⟩
        · exact Or.inr (Or.inr rfl)
        · simp only [List.mem_cons, List.not_mem_nil, or_false] at hl'
          rcases hl' with rfl | rfl | rfl <;>
          · rcases intChars_chars _ c hcl' with h | h
            · exact Or.inl h
            · exact Or.inr (Or.inl h)
  rcases hd with h | h | h
  · intro hcp
    rw [hcp] at h
    cases h
  · rw [h]; decide
  · rw [h]; decide

theorem segChars_ne_nil (p : Coord) (col : RGB) : segChars p col ≠ [] := by
  rw [segChars, joinSep]
  intro h
  rcases List.append_eq_nil.1 h with ⟨h1, _⟩
  exact intChars_ne_nil _ h1

theorem count_pipe_eq_zero {l : List Char} (h : ∀ c ∈ l, c ≠ '|') : l.count '|' = 0 :=
  List.count_eq_zero.2 (fun hmem => h '|' hmem rfl)

theorem count_joinSep :
    ∀ (x : List Char) (ls : List (List Char)),
    (∀ l ∈ x :: ls, ∀ c ∈ l, c ≠ '|') →
    (joinSep '|' (x :: ls)).count '|' = ls.length := by
  intro x ls
  induction ls generalizing x with
  | nil =>
    intro h
    rw [joinSep]
    exact count_pipe_eq_zero (h x (List.mem_cons_self _ _))
  | cons y ys ih =>
    intro h
    rw [joinSep, List.count_append, List.count_cons]
    have h1 : (joinSep '|' (y :: ys)).count '|' = ys.length :=
      ih y (fun l hl => h l (List.mem_cons_of_mem _ hl))
    rw [count_pipe_eq_zero (h x (List.mem_cons_self _ _)), h1]
    simp

theorem mapM_segs :
    ∀ (l : List (Coord × CellState)), (∀ e ∈ l, ∃ c, e.2.color = some c) →
    (l.mapM fun (e : Coord × CellState) => e.2.color.map fun c => segChars e.1 c) =
      some (l.map fun e => segChars e.1 (e.2.color.getD (0, 0, 0))) := by
  intro l
  induction l with
  | nil => intro _; rfl
  | cons e es ih =>
    intro h
    obtain ⟨c, hc⟩ := h e (List.mem_cons_self _ _)
    rw [List.mapM_cons, ih (fun e' he' => h e' (List.mem_cons_of_mem _ he')), hc]
    simp [hc]

theorem CellState.validColor_exists {st : CellState} (h : st.ValidColor) :
    ∃ c, st.color = some c ∧ ValidRGB c := by
  rw [CellState.ValidColor] at h
  cases hc : st.color with
  | none => rw [hc] at h; cases h
  | some c => rw [hc] at h; exact ⟨c, rfl, h⟩

/--
C9: for every well-formed grid and wall-clock reading, `serialize`
succeeds and returns the timestamp (six characters, each a digit, the
three components zero-padded to two digits) followed by exactly one
pipe-separated `x,y,r,g,b` segment per live cell; the number of pipes
equals the live-cell count, and with no live cell the output is the
timestamp alone (no trailing pipe).
-/
theorem joinSep_ne_nil {sep : Char} :
    ∀ {ls : List (List Char)}, (∀ l ∈ ls, l ≠ []) → ls ≠ [] → joinSep sep ls ≠ []
  | [], _, hne => absurd rfl hne
  | [x], hl, _ => by
    rw [joinSep]
    exact hl x (List.mem_singleton_self x)
  | x :: y :: xs, hl, _ => by
    rw [joinSep]
    intro hcontra
    rcases List.append_eq_nil.1 hcontra with ⟨h1, -⟩
    exact hl x (List.mem_cons_self _ _) h1

theorem serializeO_branch (date : List Char) (segs : List (List Char))
    (hne : ∀ l ∈ segs, l ≠ []) :
    (if (joinSep '|' segs).length > 0 then date ++ '|' :: joinSep '|' segs else date) =
      joinSep '|' (date :: segs) := by
  cases segs with
  | nil =>
    rw [joinSep, joinSep]
    simp [joinSep]
  | cons s ss =>
    have hpos : 0 < (joinSep '|' (s :: ss)).length :=
      List.length_pos.2 (joinSep_ne_nil hne (by simp))
    rw [if_pos hpos, joinSep]

set_option maxHeartbeats 1000000 in
theorem serializeO_eq_spec (g : Grid) (h m s : ℕ) (hWF : g.WF) :
    g.serializeO h m s = some (g.serializeSpec h m s) := by
  obtain ⟨-, -, hcol⟩ := hWF
  have hlive : ∀ e ∈ g.cells.filter (fun e => e.2.alive), ∃ c, e.2.color = some c := by
    intro e he
    rw [List.mem_filter] at he
    obtain ⟨c, hc, -⟩ := CellState.validColor_exists (hcol e he.1 he.2)
    exact ⟨c, hc⟩
  have hmap := mapM_segs (g.cells.filter fun e => e.2.alive) hlive
  rw [Grid.serializeO, hmap, Grid.serializeSpec]
  simp only [Option.map_some', Option.some_inj]
  exact serializeO_branch (timeChars h m s)
    ((g.cells.filter fun e => e.2.alive).map fun e => segChars e.1 (e.2.color.getD (0, 0, 0)))
    (by
      intro l hl
      obtain ⟨e', -, rfl⟩ := List.mem_map.1 hl
      exact segChars_ne_nil _ _)

theorem serializeSpec_count (g : Grid) (h m s : ℕ) :
    (g.serializeSpec h m s).count '|' = g.liveList.length := by
  have hpipefree : ∀ l ∈ timeChars h m s ::
      ((g.cells.filter fun e => e.2.alive).map fun e =>
        segChars e.1 (e.2.color.getD (0, 0, 0))), ∀ c ∈ l, c ≠ '|' := by
    intro l hl c hc
    rcases List.mem_cons.1 hl with rfl | hl
    · intro hcp
      rw [hcp] at hc
      exact absurd (timeChars_digits h m s '|' hc) (by decide)
    · obtain ⟨e', -, rfl⟩ := List.mem_map.1 hl
      exact segChars_no_pipe _ _ c hc
  rw [Grid.serializeSpec, count_joinSep _ _ hpipefree, List.length_map,
    Grid.liveList, List.length_map]

/--
C9: for every well-formed grid and wall-clock reading, `serialize`
succeeds and returns the timestamp (six characters, each a digit, the
three components zero-padded to two digits) followed by exactly one
pipe-separated `x,y,r,g,b` segment per live cell; the number of pipes
equals the live-cell count, and with no live cell the output is the
timestamp alone (no trailing pipe).
-/
theorem serialize_spec (g : Grid) (h m s : ℕ) (hWF : g.WF)
    (_hh : h < 24) (_hm : m < 60) (_hs : s < 60) :
    ∃ out, g.serializeO h m s = some out ∧
      out = g.serializeSpec h m s ∧
      (timeChars h m s).length = 6 ∧
      (∀ c ∈ timeChars h m s, c.isDigit = true) ∧
      out.count '|' = g.liveList.length ∧
      (g.liveList = [] → out = timeChars h m s) := by
  refine ⟨g.serializeSpec h m s, serializeO_eq_spec g h m s hWF, rfl,
    timeChars_length h m s, timeChars_digits h m s, serializeSpec_count g h m s, ?_⟩
  intro hempty
  have hfl : g.cells.filter (fun e => e.2.alive) = [] := by
    have := congrArg List.length hempty
    rw [Grid.liveList, List.length_map] at this
    exact List.eq_nil_of_length_eq_zero this
  rw [Grid.serializeSpec, hfl]
  rfl

/-! ## The tick algorithm: claims C1, C2 and C4 -/

/--
One worklist step, relative to the pre-tick snapshot `g₀`: aliveness and
bounds are untouched, the neighbors are enqueued exactly for live cells,
the cell joins `cellsToSwitch` exactly when the flip rule (computed on
the snapshot) fires, and the only color change is the birth color written
on a dead cell with exactly three live neighbors — the `avg` of the
snapshot colors of those neighbors, in neighbor order.
-/
theorem tickStep_spec {g₀ : Grid} (avg : RGB → RGB → RGB → RGB) {g : Grid} {p : Coord}
    {ts ts' : List Coord} {g' : Grid} {enq : List Coord}
    (hbx : g.maxX = g₀.maxX) (hby : g.maxY = g₀.maxY)
    (halive : ∀ q, g.aliveAt q = g₀.aliveAt q)
    (hlcolor : ∀ q, g₀.aliveAt q = true → g.colorAt q = g₀.colorAt q)
    (hpin : g₀.inBounds p)
    (hWF : g.WF)
    (hstep : tickStep avg g p ts = some (g', enq, ts')) :
    g'.maxX = g₀.maxX ∧ g'.maxY = g₀.maxY ∧
    (∀ q, g'.aliveAt q = g₀.aliveAt q) ∧
    enq = (if g₀.aliveAt p = true then g₀.neighborCoords p else []) ∧
    (if FlipRule g₀ p then ts' = ts ++ [p] else ts' = ts) ∧
    (∀ q, q ≠ p → g'.colorAt q = g.colorAt q) ∧
    (g₀.aliveAt p = true → g'.colorAt p = g.colorAt p) ∧
    (g₀.aliveAt p = false → FlipRule g₀ p →
      ∃ c, g₀.birthColorOpt avg p = some c ∧ g'.colorAt p = some c ∧ ValidRGB c) ∧
    (g₀.aliveAt p = false → ¬FlipRule g₀ p → g'.colorAt p = g.colorAt p) ∧
    g'.WF := by
  obtain ⟨g₁, hnb, hx₁, hy₁, ha₁, hc₁, hwf₁⟩ := g.neighborsO_spec p
  rw [tickStep, hnb] at hstep
  dsimp only at hstep
  have hap : g₁.aliveAt p = g₀.aliveAt p := (ha₁ p).trans (halive p)
  have hnc : g.neighborCoords p = g₀.neighborCoords p := Grid.neighborCoords_congr hbx hby p
  have hlnb : (g.neighborCoords p).filter g₁.aliveAt = g₀.liveNeighborCoords p := by
    rw [hnc, Grid.liveNeighborCoords]
    apply List.filter_congr
    intro q _
    rw [ha₁ q, halive q]
  rw [hlnb, hap] at hstep
  cases hA : g₀.aliveAt p with
  | true =>
    rw [hA, if_pos rfl] at hstep
    have hfr : FlipRule g₀ p ↔
        ((g₀.liveNeighborCoords p).length < 2 ∨ 3 < (g₀.liveNeighborCoords p).length) := by
      rw [FlipRule, hA]
      simp
    split at hstep
    · next hcond =>
      rw [Option.some_inj] at hstep
      simp only [Prod.mk.injEq] at hstep
      obtain ⟨rfl, rfl, rfl⟩ := hstep
      refine ⟨hx₁.trans hbx, hy₁.trans hby, fun q => (ha₁ q).trans (halive q),
        (by rw [if_pos rfl]; exact hnc), (by rw [if_pos (hfr.2 hcond)]),
        (fun q _ => hc₁ q), (fun _ => hc₁ p), (fun h => absurd h (by simp)),
        (fun h => absurd h (by simp)), hwf₁ hWF⟩
    · next hcond =>
      rw [Option.some_inj] at hstep
      simp only [Prod.mk.injEq] at hstep
      obtain ⟨rfl, rfl, rfl⟩ := hstep
      refine ⟨hx₁.trans hbx, hy₁.trans hby, fun q => (ha₁ q).trans (halive q),
        (by rw [if_pos rfl]; exact hnc), (by rw [if_neg (fun hf => hcond (hfr.1 hf))]),
        (fun q _ => hc₁ q), (fun _ => hc₁ p), (fun h => absurd h (by simp)),
        (fun h => absurd h (by simp)), hwf₁ hWF⟩
  | false =>
    rw [hA, if_neg (by simp)] at hstep
    have hfr : FlipRule g₀ p ↔ (g₀.liveNeighborCoords p).length = 3 := by
      rw [FlipRule, hA]
      simp
    cases hshape : g₀.liveNeighborCoords p with
    | nil =>
      rw [hshape] at hstep
      dsimp only at hstep
      rw [Option.some_inj] at hstep
      simp only [Prod.mk.injEq] at hstep
      obtain ⟨rfl, rfl, rfl⟩ := hstep
      have hnf : ¬FlipRule g₀ p := by rw [hfr, hshape]; simp
      exact ⟨hx₁.trans hbx, hy₁.trans hby, fun q => (ha₁ q).trans (halive q),
        (by rw [if_neg (by simp)]), (by rw [if_neg hnf]), (fun q _ => hc₁ q),
        (fun h => absurd h (by simp)), (fun _ hf => absurd hf hnf), (fun _ _ => hc₁ p), hwf₁ hWF⟩
    | cons m₁ l₁ =>
    cases l₁ with
    | nil =>
      rw [hshape] at hstep
      dsimp only at hstep
      rw [Option.some_inj] at hstep
      simp only [Prod.mk.injEq] at hstep
      obtain ⟨rfl, rfl, rfl⟩ := hstep
      have hnf : ¬FlipRule g₀ p := by rw [hfr, hshape]; simp
      exact ⟨hx₁.trans hbx, hy₁.trans hby, fun q => (ha₁ q).trans (halive q),
        (by rw [if_neg (by simp)]), (by rw [if_neg hnf]), (fun q _ => hc₁ q),
        (fun h => absurd h (by simp)), (fun _ hf => absurd hf hnf), (fun _ _ => hc₁ p), hwf₁ hWF⟩
    | cons m₂ l₂ =>
    cases l₂ with
    | nil =>
      rw [hshape] at hstep
      dsimp only at hstep
      rw [Option.some_inj] at hstep
      simp only [Prod.mk.injEq] at hstep
      obtain ⟨rfl, rfl, rfl⟩ := hstep
      have hnf : ¬FlipRule g₀ p := by rw [hfr, hshape]; simp
      exact ⟨hx₁.trans hbx, hy₁.trans hby, fun q => (ha₁ q).trans (halive q),
        (by rw [if_neg (by simp)]), (by rw [if_neg hnf]), (fun q _ => hc₁ q),
        (fun h => absurd h (by simp)), (fun _ hf => absurd hf hnf), (fun _ _ => hc₁ p), hwf₁ hWF⟩
    | cons m₃ l₃ =>
    cases l₃ with
    | cons m₄ l₄ =>
      rw [hshape] at hstep
      dsimp only at hstep
      rw [Option.some_inj] at hstep
      simp only [Prod.mk.injEq] at hstep
      obtain ⟨rfl, rfl, rfl⟩ := hstep
      have hnf : ¬FlipRule g₀ p := by rw [hfr, hshape]; simp
      exact ⟨hx₁.trans hbx, hy₁.trans hby, fun q => (ha₁ q).trans (halive q),
        (by rw [if_neg (by simp)]), (by rw [if_neg hnf]), (fun q _ => hc₁ q),
        (fun h => absurd h (by simp)), (fun _ hf => absurd hf hnf), (fun _ _ => hc₁ p), hwf₁ hWF⟩
    | nil =>
      rw [hshape] at hstep
      dsimp only at hstep
      have hmemfilter : ∀ n, n ∈ g₀.liveNeighborCoords p → g₀.aliveAt n = true := by
        intro n hn
        rw [Grid.liveNeighborCoords, List.mem_filter] at hn
        exact hn.2
      have han₁ : g₀.aliveAt m₁ = true := hmemfilter m₁ (by rw [hshape]; simp)
      have han₂ : g₀.aliveAt m₂ = true := hmemfilter m₂ (by rw [hshape]; simp)
      have han₃ : g₀.aliveAt m₃ = true := hmemfilter m₃ (by rw [hshape]; simp)
      have hcol : ∀ n, g₀.aliveAt n = true → g₁.colorAt n = g₀.colorAt n := fun n hn =>
        (hc₁ n).trans (hlcolor n hn)
      cases hcc₁ : g₁.colorAt m₁ with
      | none => rw [hcc₁] at hstep; exact Option.noConfusion hstep
      | some c₁ =>
      cases hcc₂ : g₁.colorAt m₂ with
      | none => rw [hcc₁, hcc₂] at hstep; exact Option.noConfusion hstep
      | some c₂ =>
      cases hcc₃ : g₁.colorAt m₃ with
      | none => rw [hcc₁, hcc₂, hcc₃] at hstep; exact Option.noConfusion hstep
      | some c₃ =>
      rw [hcc₁, hcc₂, hcc₃] at hstep
      have hgc₁ : g₀.colorAt m₁ = some c₁ := (hcol m₁ han₁).symm.trans hcc₁
      have hgc₂ : g₀.colorAt m₂ = some c₂ := (hcol m₂ han₂).symm.trans hcc₂
      have hgc₃ : g₀.colorAt m₃ = some c₃ := (hcol m₃ han₃).symm.trans hcc₃
      rw [Grid.getD_find] at hstep
      simp only [cellSetColor] at hstep
      by_cases hv : ValidRGB (avg c₁ c₂ c₃)
      swap
      · rw [if_neg hv] at hstep
        exact Option.noConfusion hstep
      rw [if_pos hv] at hstep
      dsimp only at hstep
      rw [Option.some_inj] at hstep
      simp only [Prod.mk.injEq] at hstep
      obtain ⟨rfl, rfl, rfl⟩ := hstep
      have hflip : FlipRule g₀ p := hfr.2 (by rw [hshape]; rfl)
      have hstalive : (⟨g₁.aliveAt p, some (avg c₁ c₂ c₃)⟩ : CellState).alive = false := by
        show g₁.aliveAt p = false
        rw [hap, hA]
      refine ⟨hx₁.trans hbx, hy₁.trans hby, ?_, (by rw [if_neg (by simp)]),
        (by rw [if_pos hflip]), ?_, (fun h => absurd h (by simp)), ?_,
        (fun _ hnf => absurd hflip hnf), ?_⟩
      · intro q
        rw [Grid.aliveAt_setCellState]
        split
        · next hpq =>
          subst hpq
          rw [show (⟨g₁.aliveAt p, some (avg c₁ c₂ c₃)⟩ : CellState).alive =
            g₁.aliveAt p from rfl, hap]
        · exact (ha₁ q).trans (halive q)
      · intro q hq
        rw [Grid.colorAt_setCellState, if_neg (fun h => hq h.symm)]
        exact hc₁ q
      · intro _ _
        refine ⟨avg c₁ c₂ c₃, ?_, ?_, hv⟩
        · rw [Grid.birthColorOpt, hshape]
          simp only [List.map_cons, List.map_nil, hgc₁, hgc₂, hgc₃]
        · rw [Grid.colorAt_setCellState, if_pos rfl]
      · refine Grid.WF_setCellState (hwf₁ hWF)
          ((Grid.inBounds_congr (hx₁.trans hbx) (hy₁.trans hby) p).2 hpin) ?_
        intro h
        rw [hstalive] at h
        cases h


theorem Grid.aliveAt_color {g : Grid} (hWF : g.WF) {q : Coord}
    (h : g.aliveAt q = true) : ∃ c, g.colorAt q = some c ∧ ValidRGB c := by
  rw [Grid.aliveAt] at h
  cases hf : g.find q with
  | none => rw [hf] at h; cases h
  | some st =>
    rw [hf] at h
    have hmem : (q, st) ∈ g.cells := mem_of_lookupCell hf
    obtain ⟨c, hc, hv⟩ := CellState.validColor_exists (hWF.2.2 (q, st) hmem h)
    refine ⟨c, ?_, hv⟩
    rw [Grid.colorAt, hf]
    exact hc

/-- With a well-formed grid and a pipeline producing valid colors, a
worklist step never hits an assertion. -/
theorem tickStep_some (avg : RGB → RGB → RGB → RGB) (hV : ValidAvg avg)
    (g : Grid) (p : Coord) (ts : List Coord) (hWF : g.WF) :
    ∃ out, tickStep avg g p ts = some out := by
  obtain ⟨g₁, hnb, hx₁, hy₁, ha₁, hc₁, hwf₁⟩ := g.neighborsO_spec p
  rw [tickStep, hnb]
  dsimp only
  cases hA : g₁.aliveAt p with
  | true =>
    rw [if_pos rfl]
    split <;> exact ⟨_, rfl⟩
  | false =>
    rw [if_neg (by simp)]
    cases hshape : (g.neighborCoords p).filter g₁.aliveAt with
    | nil => exact ⟨_, rfl⟩
    | cons m₁ l₁ =>
    cases l₁ with
    | nil => exact ⟨_, rfl⟩
    | cons m₂ l₂ =>
    cases l₂ with
    | nil => exact ⟨_, rfl⟩
    | cons m₃ l₃ =>
    cases l₃ with
    | cons m₄ l₄ => exact ⟨_, rfl⟩
    | nil =>
      have hmem : ∀ n, n ∈ [m₁, m₂, m₃] → g₁.aliveAt n = true := by
        intro n hn
        have : n ∈ (g.neighborCoords p).filter g₁.aliveAt := by rw [hshape]; exact hn
        exact (List.mem_filter.1 this).2
      have hwf₁' := hwf₁ hWF
      obtain ⟨c₁, hcc₁, hv₁⟩ := Grid.aliveAt_color hwf₁' (hmem m₁ (by simp))
      obtain ⟨c₂, hcc₂, hv₂⟩ := Grid.aliveAt_color hwf₁' (hmem m₂ (by simp))
      obtain ⟨c₃, hcc₃, hv₃⟩ := Grid.aliveAt_color hwf₁' (hmem m₃ (by simp))
      dsimp only
      rw [hcc₁, hcc₂, hcc₃]
      dsimp only
      rw [Grid.getD_find]
      simp only [cellSetColor]
      rw [if_pos (hV c₁ c₂ c₃ hv₁ hv₂ hv₃)]
      exact ⟨_, rfl⟩

/--
`applyFlips` on a duplicate-free list of in-bounds cells, each dead one
carrying a valid color: it succeeds, flips exactly the listed cells
(`setDead` on live ones, `setAlive` on dead ones), and leaves every other
cell untouched.
-/
theorem applyFlips_spec :
    ∀ (ts : List Coord) (g : Grid), ts.Nodup →
    (∀ p ∈ ts, g.inBounds p) → g.WF →
    (∀ p ∈ ts, g.aliveAt p = false → ∃ c, g.colorAt p = some c ∧ ValidRGB c) →
    ∃ gf, applyFlips g ts = some gf ∧
      gf.maxX = g.maxX ∧ gf.maxY = g.maxY ∧ gf.WF ∧
      (∀ p, p ∉ ts → gf.view p = g.view p) ∧
      (∀ p ∈ ts, (g.aliveAt p = true → gf.view p = (false, none)) ∧
        (g.aliveAt p = false → gf.aliveAt p = true ∧ gf.colorAt p = g.colorAt p))
  | [], g, _, _, hWF, _ => ⟨g, rfl, rfl, rfl, hWF, fun _ _ => rfl, by simp⟩
  | p :: ts, g, hnd, hin, hWF, hcol => by
    rw [List.nodup_cons] at hnd
    have hpin : g.inBounds p := hin p (List.mem_cons_self _ _)
    cases hA : g.aliveAt p with
    | true =>
      have hstep : applyFlips g (p :: ts) =
          applyFlips (g.setCellState p ⟨false, none⟩) ts := by
        rw [applyFlips, Grid.getD_find]
        dsimp only
        rw [hA, if_pos rfl]
        rfl
      have hwf₁ : (g.setCellState p ⟨false, none⟩).WF :=
        Grid.WF_setCellState hWF hpin (by intro h; cases h)
      have hview₁ : ∀ q, q ≠ p → (g.setCellState p ⟨false, none⟩).view q = g.view q := by
        intro q hq
        rw [Grid.view, Grid.view, Grid.aliveAt_setCellState, Grid.colorAt_setCellState,
          if_neg (fun h => hq h.symm), if_neg (fun h => hq h.symm)]
      obtain ⟨gf, hrun, hx, hy, hwf, hunch, hflips⟩ :=
        applyFlips_spec ts (g.setCellState p ⟨false, none⟩) hnd.2
          (fun q hq => (Grid.inBounds_congr rfl rfl q).2 (hin q (List.mem_cons_of_mem _ hq)))
          hwf₁
          (fun q hq hqa => by
            have hqp : q ≠ p := fun h => hnd.1 (h ▸ hq)
            rw [Grid.aliveAt_setCellState, if_neg (fun h => hqp h.symm)] at hqa
            obtain ⟨c, hc, hv⟩ := hcol q (List.mem_cons_of_mem _ hq) hqa
            refine ⟨c, ?_, hv⟩
            rw [Grid.colorAt_setCellState, if_neg (fun h => hqp h.symm)]
            exact hc)
      refine ⟨gf, hstep ▸ hrun, hx, hy, hwf, ?_, ?_⟩
      · intro q hq
        rw [List.mem_cons] at hq
        push_neg at hq
        rw [hunch q hq.2, hview₁ q hq.1]
      · intro q hq
        rcases List.mem_cons.1 hq with rfl | hq
        · refine ⟨fun _ => ?_, fun hfalse => ?_⟩
          · rw [hunch q hnd.1, Grid.view, Grid.aliveAt_setCellState, if_pos rfl,
              Grid.colorAt_setCellState, if_pos rfl]
          · rw [hA] at hfalse
            cases hfalse
        · have hqp : q ≠ p := fun h => hnd.1 (h ▸ hq)
          obtain ⟨h1, h2⟩ := hflips q hq
          have haq : (g.setCellState p ⟨false, none⟩).aliveAt q = g.aliveAt q := by
            rw [Grid.aliveAt_setCellState, if_neg (fun h => hqp h.symm)]
          have hcq : (g.setCellState p ⟨false, none⟩).colorAt q = g.colorAt q := by
            rw [Grid.colorAt_setCellState, if_neg (fun h => hqp h.symm)]
          exact ⟨fun ht => h1 (haq.trans ht), fun hf =>
            ⟨(h2 (haq.trans hf)).1, ((h2 (haq.trans hf)).2).trans hcq⟩⟩
    | false =>
      obtain ⟨c, hc, hv⟩ := hcol p (List.mem_cons_self _ _) hA
      have hstep : applyFlips g (p :: ts) =
          applyFlips (g.setCellState p ⟨true, some c⟩) ts := by
        rw [applyFlips, Grid.getD_find]
        dsimp only
        rw [hA, hc]
        rfl
      have hwf₁ : (g.setCellState p ⟨true, some c⟩).WF :=
        Grid.WF_setCellState hWF hpin (fun _ => hv)
      obtain ⟨gf, hrun, hx, hy, hwf, hunch, hflips⟩ :=
        applyFlips_spec ts (g.setCellState p ⟨true, some c⟩) hnd.2
          (fun q hq => (Grid.inBounds_congr rfl rfl q).2 (hin q (List.mem_cons_of_mem _ hq)))
          hwf₁
          (fun q hq hqa => by
            have hqp : q ≠ p := fun h => hnd.1 (h ▸ hq)
            rw [Grid.aliveAt_setCellState, if_neg (fun h => hqp h.symm)] at hqa
            obtain ⟨c', hc', hv'⟩ := hcol q (List.mem_cons_of_mem _ hq) hqa
            refine ⟨c', ?_, hv'⟩
            rw [Grid.colorAt_setCellState, if_neg (fun h => hqp h.symm)]
            exact hc')
      refine ⟨gf, hstep ▸ hrun, hx, hy, hwf, ?_, ?_⟩
      · intro q hq
        rw [List.mem_cons] at hq
        push_neg at hq
        rw [hunch q hq.2, Grid.view, Grid.aliveAt_setCellState, Grid.colorAt_setCellState,
          if_neg (fun h => hq.1 h.symm), if_neg (fun h => hq.1 h.symm)]
        rfl
      · intro q hq
        rcases List.mem_cons.1 hq with rfl | hq
        · refine ⟨fun htrue => ?_, fun _ => ?_⟩
          · rw [hA] at htrue
            cases htrue
          · have hview := hunch q hnd.1
            have h1 : gf.aliveAt q = (g.setCellState q ⟨true, some c⟩).aliveAt q :=
              congrArg Prod.fst hview
            have h2 : gf.colorAt q = (g.setCellState q ⟨true, some c⟩).colorAt q :=
              congrArg Prod.snd hview
            constructor
            · rw [h1, Grid.aliveAt_setCellState, if_pos rfl]
            · rw [h2, Grid.colorAt_setCellState, if_pos rfl, hc]
        · have hqp : q ≠ p := fun h => hnd.1 (h ▸ hq)
          obtain ⟨h1, h2⟩ := hflips q hq
          have haq : (g.setCellState p ⟨true, some c⟩).aliveAt q = g.aliveAt q := by
            rw [Grid.aliveAt_setCellState, if_neg (fun h => hqp h.symm)]
          have hcq : (g.setCellState p ⟨true, some c⟩).colorAt q = g.colorAt q := by
            rw [Grid.colorAt_setCellState, if_neg (fun h => hqp h.symm)]
          exact ⟨fun ht => h1 (haq.trans ht), fun hf =>
            ⟨(h2 (haq.trans hf)).1, ((h2 (haq.trans hf)).2).trans hcq⟩⟩

/--
The worklist loop preserves `LoopInv` and drains the queue: a successful
run starting from an invariant state ends in an invariant state with an
empty queue.
-/
theorem tickLoop_sound (g₀ : Grid) (avg : RGB → RGB → RGB → RGB) :
    ∀ (fuel : ℕ) (g : Grid) (queue : List Coord) (checked : Finset Coord)
      (ts : List Coord) (gf : Grid) (cf : Finset Coord) (tf : List Coord),
    tickLoop avg fuel g queue checked ts = some (gf, cf, tf) →
    LoopInv g₀ avg g queue checked ts →
    LoopInv g₀ avg gf [] cf tf := by
  intro fuel
  induction fuel with
  | zero =>
    intro g queue checked ts gf cf tf hrun hinv
    cases queue with
    | nil =>
      rw [tickLoop, Option.some_inj] at hrun
      simp only [Prod.mk.injEq] at hrun
      obtain ⟨rfl, rfl, rfl⟩ := hrun
      exact hinv
    | cons c cs =>
      rw [tickLoop] at hrun
      exact Option.noConfusion hrun
  | succ fuel ih =>
    intro g queue checked ts gf cf tf hrun hinv
    cases queue with
    | nil =>
      rw [tickLoop, Option.some_inj] at hrun
      simp only [Prod.mk.injEq] at hrun
      obtain ⟨rfl, rfl, rfl⟩ := hrun
      exact hinv
    | cons c cs =>
      rw [tickLoop] at hrun
      set p := (c :: cs).getLast (List.cons_ne_nil c cs) with hpdef
      set rest := (c :: cs).dropLast with hrestdef
      have hqsplit : rest ++ [p] = c :: cs :=
        List.dropLast_append_getLast (List.cons_ne_nil c cs)
      have hpmem : p ∈ c :: cs := List.getLast_mem _
      have hrestsub : ∀ q ∈ rest, q ∈ c :: cs := by
        intro q hq
        rw [← hqsplit]
        exact List.mem_append_left _ hq
      obtain ⟨hbx, hby, hwf, halive, hcolor, hborn, hnodup, hsc, hflip, hnoflip,
        hqb, hcb, hqe, hce, hlc, hnc⟩ := hinv
      by_cases hpc : p ∈ checked
      · rw [if_pos hpc] at hrun
        refine ih g rest checked ts gf cf tf hrun
          ⟨hbx, hby, hwf, halive, hcolor, hborn, hnodup, hsc, hflip, hnoflip,
            (fun q hq => hqb q (hrestsub q hq)), hcb,
            (fun q hq => hqe q (hrestsub q hq)), hce, ?_, ?_⟩
        · intro q hq
          rcases hlc q hq with h | h
          · exact Or.inl h
          · rw [← hqsplit] at h
            rcases List.mem_append.1 h with h | h
            · exact Or.inr h
            · rw [List.mem_singleton] at h
              subst h
              exact Or.inl hpc
        · intro q hq hqa r hr
          rcases hnc q hq hqa r hr with h | h
          · exact Or.inl h
          · rw [← hqsplit] at h
            rcases List.mem_append.1 h with h | h
            · exact Or.inr h
            · rw [List.mem_singleton] at h
              subst h
              exact Or.inl hpc
      · rw [if_neg hpc] at hrun
        cases hstep : tickStep avg g p ts with
        | none =>
          rw [hstep] at hrun
          exact Option.noConfusion hrun
        | some out =>
          obtain ⟨g₁, enq, ts'⟩ := out
          rw [hstep] at hrun
          obtain ⟨hbx', hby', halive', henq, hts', hcolq, hcolalive, hcolborn, hcolnb, hwf'⟩ :=
            tickStep_spec avg hbx hby halive
              (fun q hq => hcolor q (fun _ => hq)) (hqb p hpmem) hwf hstep
          have hpnts : p ∉ ts := fun h => hpc (hsc p h)
          have hts_sub : ∀ q ∈ ts, q ∈ ts' := by
            intro q hq
            by_cases hFR : FlipRule g₀ p
            · rw [if_pos hFR] at hts'
              rw [hts']
              exact List.mem_append_left _ hq
            · rw [if_neg hFR] at hts'
              rw [hts']
              exact hq
          have hts_cases : ∀ q ∈ ts', q ∈ ts ∨ (q = p ∧ FlipRule g₀ p) := by
            intro q hq
            by_cases hFR : FlipRule g₀ p
            · rw [if_pos hFR] at hts'
              rw [hts'] at hq
              rcases List.mem_append.1 hq with hq | hq
              · exact Or.inl hq
              · rw [List.mem_singleton] at hq
                exact Or.inr ⟨hq, hFR⟩
            · rw [if_neg hFR] at hts'
              rw [hts'] at hq
              exact Or.inl hq
          have hts_nodup : ts'.Nodup := by
            by_cases hFR : FlipRule g₀ p
            · rw [if_pos hFR] at hts'
              rw [hts']
              refine List.Nodup.append hnodup (List.nodup_singleton p) ?_
              intro a ha hap
              rw [List.mem_singleton] at hap
              subst hap
              exact hpnts ha
            · rw [if_neg hFR] at hts'
              rw [hts']
              exact hnodup
          have hp_ts' : FlipRule g₀ p → p ∈ ts' := by
            intro hFR
            rw [if_pos hFR] at hts'
            rw [hts']
            exact List.mem_append_right _ (List.mem_singleton_self p)
          refine ih g₁ (rest ++ enq) (insert p checked) ts' gf cf tf hrun
            ⟨hbx', hby', hwf', halive', ?_, ?_, hts_nodup, ?_, ?_, ?_, ?_, ?_, ?_, ?_, ?_, ?_⟩
          · -- color_eq
            intro q hg
            by_cases hqp : q = p
            · subst hqp
              cases hAp : g₀.aliveAt p with
              | true =>
                rw [hcolalive hAp]
                exact hcolor p (fun _ => hAp)
              | false =>
                by_cases hFR : FlipRule g₀ p
                · have := hg (hp_ts' hFR)
                  rw [hAp] at this
                  cases this
                · rw [hcolnb hAp hFR]
                  exact hcolor p (fun hmem => absurd hmem hpnts)
            · rw [hcolq q hqp]
              exact hcolor q (fun hmem => hg (hts_sub q hmem))
          · -- born
            intro q hq hqa
            rcases hts_cases q hq with hq' | ⟨rfl, hFR⟩
            · obtain ⟨cc, hbc, hgc, hv⟩ := hborn q hq' hqa
              have hqp : q ≠ p := fun h => hpnts (h ▸ hq')
              exact ⟨cc, hbc, (hcolq q hqp).trans hgc, hv⟩
            · exact hcolborn hqa hFR
          · -- switch_checked
            intro q hq
            rcases hts_cases q hq with hq' | ⟨rfl, -⟩
            · exact Finset.mem_insert_of_mem (hsc q hq')
            · exact Finset.mem_insert_self p checked
          · -- flip
            intro q hq
            rcases hts_cases q hq with hq' | ⟨rfl, hFR⟩
            · exact hflip q hq'
            · exact hFR
          · -- noflip
            intro q hq hqnts
            rcases Finset.mem_insert.1 hq with rfl | hq'
            · exact fun hFR => hqnts (hp_ts' hFR)
            · exact hnoflip q hq' (fun hmem => hqnts (hts_sub q hmem))
          · -- queue_bounds
            intro q hq
            rcases List.mem_append.1 hq with hq | hq
            · exact hqb q (hrestsub q hq)
            · rw [henq] at hq
              split at hq
              · exact g₀.neighborCoords_inBounds p q hq
              · cases hq
          · -- checked_bounds
            intro q hq
            rcases Finset.mem_insert.1 hq with rfl | hq'
            · exact hqb p hpmem
            · exact hcb q hq'
          · -- queue_eval
            intro q hq
            rcases List.mem_append.1 hq with hq | hq
            · exact hqe q (hrestsub q hq)
            · rw [henq] at hq
              split at hq
              · next hAp => exact Or.inr ⟨p, hAp, hq⟩
              · cases hq
          · -- checked_eval
            intro q hq
            rcases Finset.mem_insert.1 hq with rfl | hq'
            · exact hqe p hpmem
            · exact hce q hq'
          · -- live_covered
            intro q hq
            rcases hlc q hq with h | h
            · exact Or.inl (Finset.mem_insert_of_mem h)
            · rw [← hqsplit] at h
              rcases List.mem_append.1 h with h | h
              · exact Or.inr (List.mem_append_left _ h)
              · rw [List.mem_singleton] at h
                subst h
                exact Or.inl (Finset.mem_insert_self p checked)
          · -- nbrs_covered
            intro q hq hqa r hr
            rcases Finset.mem_insert.1 hq with rfl | hq'
            · refine Or.inr (List.mem_append_right _ ?_)
              rw [henq, if_pos hqa]
              exact hr
            · rcases hnc q hq' hqa r hr with h | h
              · exact Or.inl (Finset.mem_insert_of_mem h)
              · rw [← hqsplit] at h
                rcases List.mem_append.1 h with h | h
                · exact Or.inr (List.mem_append_left _ h)
                · rw [List.mem_singleton] at h
                  subst h
                  exact Or.inl (Finset.mem_insert_self p checked)

theorem Grid.mem_boundsFinset (g : Grid) (p : Coord) :
    p ∈ g.boundsFinset ↔ g.inBounds p := by
  rw [Grid.boundsFinset, Finset.mem_product, Finset.mem_Icc, Finset.mem_Icc, Grid.inBounds]
  tauto

theorem Grid.boundsFinset_congr {g g' : Grid} (hx : g'.maxX = g.maxX)
    (hy : g'.maxY = g.maxY) : g'.boundsFinset = g.boundsFinset := by
  rw [Grid.boundsFinset, Grid.boundsFinset, hx, hy]

theorem Grid.neighborCoords_length_le (g : Grid) (p : Coord) :
    (g.neighborCoords p).length ≤ 8 := by
  calc (g.neighborCoords p).length ≤ (addOffsets p mooreOffsets).length :=
        List.length_filter_le _ _
    _ = 8 := by rw [addOffsets, List.length_map]; rfl

/--
The worklist loop terminates within `|queue| + 9·|bounds \ checked|` pops:
with a well-formed grid and a valid color pipeline it returns a result.
-/
theorem tickLoop_some (avg : RGB → RGB → RGB → RGB) (hV : ValidAvg avg) :
    ∀ (fuel : ℕ) (g : Grid) (queue : List Coord) (checked : Finset Coord)
      (ts : List Coord),
    g.WF → (∀ p ∈ queue, g.inBounds p) →
    queue.length + 9 * ((g.boundsFinset \ checked).card) ≤ fuel →
    ∃ out, tickLoop avg fuel g queue checked ts = some out := by
  intro fuel
  induction fuel with
  | zero =>
    intro g queue checked ts _ _ hfuel
    have : queue = [] := List.eq_nil_of_length_eq_zero (by omega)
    subst this
    rw [tickLoop]
    exact ⟨_, rfl⟩
  | succ fuel ih =>
    intro g queue checked ts hWF hqb hfuel
    cases queue with
    | nil =>
      rw [tickLoop]
      exact ⟨_, rfl⟩
    | cons c cs =>
      rw [tickLoop]
      set p := (c :: cs).getLast (List.cons_ne_nil c cs) with hpdef
      set rest := (c :: cs).dropLast with hrestdef
      have hqsplit : rest ++ [p] = c :: cs :=
        List.dropLast_append_getLast (List.cons_ne_nil c cs)
      have hpmem : p ∈ c :: cs := List.getLast_mem _
      have hrestsub : ∀ q ∈ rest, q ∈ c :: cs := by
        intro q hq
        rw [← hqsplit]
        exact List.mem_append_left _ hq
      have hrestlen : rest.length = cs.length := by
        rw [hrestdef, List.length_dropLast, List.length_cons]
        rfl
      have hqlen : (c :: cs).length = cs.length + 1 := by rw [List.length_cons]
      by_cases hpc : p ∈ checked
      · rw [if_pos hpc]
        refine ih g rest checked ts hWF (fun q hq => hqb q (hrestsub q hq)) ?_
        rw [hqlen] at hfuel
        omega
      · rw [if_neg hpc]
        obtain ⟨⟨g₁, enq, ts'⟩, hstep⟩ := tickStep_some avg hV g p ts hWF
        rw [hstep]
        obtain ⟨hbx', hby', halive', henq, hts', hcolq, hcolalive, hcolborn, hcolnb, hwf'⟩ :=
          tickStep_spec avg rfl rfl (fun _ => rfl) (fun _ _ => rfl) (hqb p hpmem) hWF hstep
        have henqb : ∀ q ∈ enq, g₁.inBounds q := by
          intro q hq
          rw [henq] at hq
          split at hq
          · exact (Grid.inBounds_congr hbx' hby' q).2 (g.neighborCoords_inBounds p q hq)
          · cases hq
        have henqlen : enq.length ≤ 8 := by
          rw [henq]
          split
          · exact g.neighborCoords_length_le p
          · simp
        have hcard : (g₁.boundsFinset \ insert p checked).card + 1 =
            (g.boundsFinset \ checked).card := by
          rw [Grid.boundsFinset_congr hbx' hby']
          have hpmemb : p ∈ g.boundsFinset \ checked := by
            rw [Finset.mem_sdiff, Grid.mem_boundsFinset]
            exact ⟨hqb p hpmem, hpc⟩
          rw [Finset.sdiff_insert, Finset.card_erase_of_mem hpmemb]
          have : 0 < (g.boundsFinset \ checked).card := Finset.card_pos.2 ⟨p, hpmemb⟩
          omega
        refine ih g₁ (rest ++ enq) (insert p checked) ts' hwf' ?_ ?_
        · intro q hq
          rcases List.mem_append.1 hq with hq | hq
          · exact (Grid.inBounds_congr hbx' hby' q).2 (hqb q (hrestsub q hq))
          · exact henqb q hq
        · rw [List.length_append]
          rw [hqlen] at hfuel
          omega

/-- The initial state of the worklist satisfies the loop invariant. -/
theorem LoopInv_initial (g : Grid) (avg : RGB → RGB → RGB → RGB) (hWF : g.WF) :
    LoopInv g avg g g.liveList ∅ [] := by
  have hlive_mem : ∀ p ∈ g.liveList, g.aliveAt p = true := by
    intro p hp
    rw [Grid.liveList] at hp
    obtain ⟨e, he, rfl⟩ := List.mem_map.1 hp
    rw [List.mem_filter] at he
    have hme : (e.1, e.2) ∈ g.cells := by
      rw [Prod.mk.eta]
      exact he.1
    have := lookupCell_of_mem hWF.1 hme
    rw [Grid.aliveAt, Grid.find, this]
    exact he.2
  have hlive_bounds : ∀ p ∈ g.liveList, g.inBounds p := by
    intro p hp
    rw [Grid.liveList] at hp
    obtain ⟨e, he, rfl⟩ := List.mem_map.1 hp
    rw [List.mem_filter] at he
    exact hWF.2.1 e he.1
  refine ⟨rfl, rfl, hWF, fun _ => rfl, fun _ _ => rfl, (by simp), List.nodup_nil,
    (by simp), (by simp), (by simp), hlive_bounds, (by simp), ?_, (by simp), ?_, (by simp)⟩
  · intro p hp
    exact Or.inl (hlive_mem p hp)
  · intro p hp
    refine Or.inr ?_
    rw [Grid.aliveAt] at hp
    cases hf : g.find p with
    | none => rw [hf] at hp; cases hp
    | some st =>
      rw [hf] at hp
      have hmem : (p, st) ∈ g.cells := mem_of_lookupCell hf
      have : (p, st) ∈ g.cells.filter (fun e => e.2.alive) := by
        rw [List.mem_filter]
        exact ⟨hmem, hp⟩
      rw [Grid.liveList]
      exact List.mem_map.2 ⟨(p, st), this, rfl⟩

theorem Grid.mem_neighborCoords {g : Grid} {p q : Coord} :
    q ∈ g.neighborCoords p ↔
      g.inBounds q ∧ ∃ o ∈ mooreOffsets, q = (p.1 + o.1, p.2 + o.2) := by
  rw [Grid.neighborCoords, List.mem_filter, addOffsets]
  constructor
  · rintro ⟨hmap, hdec⟩
    refine ⟨of_decide_eq_true hdec, ?_⟩
    obtain ⟨o, ho, rfl⟩ := List.mem_map.1 hmap
    exact ⟨o, ho, rfl⟩
  · rintro ⟨hin, o, ho, rfl⟩
    exact ⟨List.mem_map.2 ⟨o, ho, rfl⟩, decide_eq_true hin⟩

theorem mooreOffsets_neg : ∀ o ∈ mooreOffsets, ((-o.1, -o.2) : ℤ × ℤ) ∈ mooreOffsets := by
  decide

theorem Grid.neighborCoords_symm {g : Grid} {p q : Coord} (hp : g.inBounds p)
    (hq : q ∈ g.neighborCoords p) : p ∈ g.neighborCoords q := by
  obtain ⟨hqin, o, ho, rfl⟩ := Grid.mem_neighborCoords.1 hq
  refine Grid.mem_neighborCoords.2 ⟨hp, (-o.1, -o.2), mooreOffsets_neg o ho, ?_⟩
  rcases p with ⟨px, py⟩
  simp only [Prod.mk.injEq]
  constructor <;> ring

theorem liveNeighborCoords_nil_of_not_evaluated {g : Grid} {p : Coord}
    (hp : g.inBounds p) (hne : ¬ g.Evaluated p) : g.liveNeighborCoords p = [] := by
  rw [List.eq_nil_iff_forall_not_mem]
  intro r hr
  rw [Grid.liveNeighborCoords, List.mem_filter] at hr
  exact hne (Or.inr ⟨r, hr.2, g.neighborCoords_symm hp hr.1⟩)

theorem Grid.aliveAt_inBounds {g : Grid} (hWF : g.WF) {q : Coord}
    (h : g.aliveAt q = true) : g.inBounds q := by
  rw [Grid.aliveAt] at h
  cases hf : g.find q with
  | none => rw [hf] at h; cases h
  | some st => exact hWF.2.1 (q, st) (mem_of_lookupCell hf)

theorem Grid.liveList_inBounds {g : Grid} (hWF : g.WF) :
    ∀ p ∈ g.liveList, g.inBounds p := by
  intro p hp
  rw [Grid.liveList] at hp
  obtain ⟨e, he, rfl⟩ := List.mem_map.1 hp
  rw [List.mem_filter] at he
  exact hWF.2.1 e he.1

theorem Grid.card_boundsFinset (g : Grid) :
    g.boundsFinset.card = (g.maxX + 1).toNat * (g.maxY + 1).toNat := by
  rw [Grid.boundsFinset, Finset.card_product, Int.card_Icc, Int.card_Icc,
    sub_zero, sub_zero]

/--
The master description of a completed `tick` on a well-formed grid: the
post-tick observable state equals the naive per-cell specification
everywhere, the visited set is exactly the live cells plus the neighbors
of live cells, unvisited cells are untouched, and well-formedness is
preserved.
-/
theorem tick_run_spec (g : Grid) (avg : RGB → RGB → RGB → RGB) (hWF : g.WF)
    {g' : Grid} (htick : g.tick avg = some g') :
    ∃ gmid cf tf, g.tickTrace avg = some (gmid, cf, tf) ∧
      g'.maxX = g.maxX ∧ g'.maxY = g.maxY ∧ g'.WF ∧
      (∀ p, g'.view p = g.naiveNext avg p) ∧
      (∀ p, p ∈ cf ↔ g.Evaluated p) ∧
      (∀ p, ¬ g.Evaluated p → g'.view p = g.view p) := by
  rw [Grid.tick] at htick
  cases htr : g.tickTrace avg with
  | none => rw [htr] at htick; exact Option.noConfusion htick
  | some out =>
    obtain ⟨gmid, cf, tf⟩ := out
    rw [htr] at htick
    have hinv : LoopInv g avg gmid [] cf tf := by
      rw [Grid.tickTrace] at htr
      exact tickLoop_sound g avg g.tickFuel g g.liveList ∅ [] gmid cf tf htr
        (LoopInv_initial g avg hWF)
    obtain ⟨hbx, hby, hwf, halive, hcolor, hborn, hnodup, hsc, hflip, hnoflip,
      hqb, hcb, hqe, hce, hlc, hnc⟩ := hinv
    have hEiff : ∀ p, p ∈ cf ↔ g.Evaluated p := by
      intro p
      refine ⟨hce p, fun he => ?_⟩
      rcases he with h | ⟨q, hq, hpq⟩
      · exact (hlc p h).resolve_right (by simp)
      · have hqcf : q ∈ cf := (hlc q hq).resolve_right (by simp)
        exact (hnc q hqcf hq p hpq).resolve_right (by simp)
    have htf_bounds : ∀ p ∈ tf, gmid.inBounds p := fun p hp =>
      (Grid.inBounds_congr hbx hby p).2 (hcb p (hsc p hp))
    have htf_col : ∀ p ∈ tf, gmid.aliveAt p = false →
        ∃ c, gmid.colorAt p = some c ∧ ValidRGB c := by
      intro p hp hpa
      rw [halive p] at hpa
      obtain ⟨c, hbc, hgc, hv⟩ := hborn p hp hpa
      exact ⟨c, hgc, hv⟩
    obtain ⟨gf, happ, hfx, hfy, hfwf, hunch, hflips⟩ :=
      applyFlips_spec tf gmid hnodup htf_bounds hwf htf_col
    obtain rfl : g' = gf := Option.some_inj.1 (htick.symm.trans happ)
    have hunview : ∀ p, p ∉ tf → g'.view p = g.view p := by
      intro p hpt
      rw [hunch p hpt, Grid.view, Grid.view, halive p,
        hcolor p (fun hmem => absurd hmem hpt)]
    refine ⟨gmid, cf, tf, rfl, hfx.trans hbx, hfy.trans hby, hfwf, ?_, hEiff, ?_⟩
    · intro p
      by_cases hpt : p ∈ tf
      · have hflp := hflips p hpt
        have hFR := hflip p hpt
        have hpcf := hsc p hpt
        have hpin : g.inBounds p := hcb p hpcf
        cases hA : g.aliveAt p with
        | true =>
          have h1 := hflp.1 (by rw [halive p, hA])
          have hcond : (g.liveNeighborCoords p).length < 2 ∨
              3 < (g.liveNeighborCoords p).length := by
            rw [FlipRule, hA] at hFR
            simpa using hFR
          rw [h1, Grid.naiveNext, if_pos hpin]
          simp [Grid.naiveCellNext, hA, hcond]
        | false =>
          have h2 := hflp.2 (by rw [halive p, hA])
          obtain ⟨c, hbc, hgc, hv⟩ := hborn p hpt hA
          have h3 : (g.liveNeighborCoords p).length = 3 := by
            rw [FlipRule, hA] at hFR
            simpa using hFR
          have hview : g'.view p = (true, some c) := by
            rw [Grid.view, h2.1, h2.2, hgc]
          rw [hview, Grid.naiveNext, if_pos hpin]
          simp [Grid.naiveCellNext, hA, h3, hbc]
      · by_cases hpcf : p ∈ cf
        · have hNFR := hnoflip p hpcf hpt
          have hpin : g.inBounds p := hcb p hpcf
          rw [hunview p hpt, Grid.naiveNext, if_pos hpin]
          cases hA : g.aliveAt p with
          | true =>
            have hcond : ¬((g.liveNeighborCoords p).length < 2 ∨
                3 < (g.liveNeighborCoords p).length) := by
              rw [FlipRule, hA] at hNFR
              simpa using hNFR
            simp [Grid.naiveCellNext, hA, hcond, Grid.view]
          | false =>
            have hcond : ¬(g.liveNeighborCoords p).length = 3 := by
              rw [FlipRule, hA] at hNFR
              simpa using hNFR
            simp [Grid.naiveCellNext, hA, hcond, Grid.view]
        · have hne : ¬ g.Evaluated p := fun he => hpcf ((hEiff p).2 he)
          have hA : g.aliveAt p = false := by
            cases hA : g.aliveAt p with
            | true => exact absurd (Or.inl hA) hne
            | false => rfl
          by_cases hpin : g.inBounds p
          · have hn0 : g.liveNeighborCoords p = [] :=
              liveNeighborCoords_nil_of_not_evaluated hpin hne
            rw [hunview p hpt, Grid.naiveNext, if_pos hpin]
            simp [Grid.naiveCellNext, hA, hn0, Grid.view]
          · rw [hunview p hpt, Grid.naiveNext, if_neg hpin]
    · intro p hne
      have hpcf : p ∉ cf := fun h => hne ((hEiff p).1 h)
      exact hunview p (fun h => hpcf (hsc p h))

/-- A completed tick exists on every well-formed grid when the pipeline
produces valid colors. -/
theorem tick_some (g : Grid) (avg : RGB → RGB → RGB → RGB) (hWF : g.WF)
    (hV : ValidAvg avg) : ∃ g', g.tick avg = some g' := by
  have hfuel : g.liveList.length + 9 * ((g.boundsFinset \ ∅).card) ≤ g.tickFuel := by
    rw [Finset.sdiff_empty, Grid.card_boundsFinset, Grid.tickFuel]
  obtain ⟨out, htr⟩ := tickLoop_some avg hV g.tickFuel g g.liveList ∅ []
    hWF (Grid.liveList_inBounds hWF) hfuel
  obtain ⟨gmid, cf, tf⟩ := out
  have hinv : LoopInv g avg gmid [] cf tf :=
    tickLoop_sound g avg g.tickFuel g g.liveList ∅ [] gmid cf tf htr
      (LoopInv_initial g avg hWF)
  obtain ⟨hbx, hby, hwf, halive, hcolor, hborn, hnodup, hsc, hflip, hnoflip,
    hqb, hcb, hqe, hce, hlc, hnc⟩ := hinv
  have htf_bounds : ∀ p ∈ tf, gmid.inBounds p := fun p hp =>
    (Grid.inBounds_congr hbx hby p).2 (hcb p (hsc p hp))
  have htf_col : ∀ p ∈ tf, gmid.aliveAt p = false →
      ∃ c, gmid.colorAt p = some c ∧ ValidRGB c := by
    intro p hp hpa
    rw [halive p] at hpa
    obtain ⟨c, hbc, hgc, hv⟩ := hborn p hp hpa
    exact ⟨c, hgc, hv⟩
  obtain ⟨gf, happ, -⟩ := applyFlips_spec tf gmid hnodup htf_bounds hwf htf_col
  refine ⟨gf, ?_⟩
  rw [Grid.tick, show g.tickTrace avg = some (gmid, cf, tf) from htr]
  exact happ

/--
C1: on every well-formed grid on which `tick` completes, each cell's fate
is a function of the pre-tick snapshot `g` alone — live Moore-neighbor
counts are taken in `g`, not in the partially updated grid — because all
flips are collected in `cellsToSwitch` and applied only after the
worklist is exhausted: a live cell with fewer than 2 or more than 3
pre-tick live neighbors is dead afterwards, a live cell with 2 or 3
stays alive, and an in-bounds dead cell with exactly 3 pre-tick live
neighbors is alive afterwards.
-/
theorem tick_fates (g : Grid) (avg : RGB → RGB → RGB → RGB) (g' : Grid)
    (hWF : g.WF) (htick : g.tick avg = some g') (p : Coord) :
    (g.aliveAt p = true →
      (((g.liveNeighborCoords p).length < 2 ∨ 3 < (g.liveNeighborCoords p).length) →
        g'.aliveAt p = false) ∧
      ((2 ≤ (g.liveNeighborCoords p).length ∧ (g.liveNeighborCoords p).length ≤ 3) →
        g'.aliveAt p = true)) ∧
    (g.aliveAt p = false → (g.liveNeighborCoords p).length = 3 → g.inBounds p →
      g'.aliveAt p = true) := by
  obtain ⟨gmid, cf, tf, -, -, -, -, hview, -, -⟩ := tick_run_spec g avg hWF htick
  have hfst : g'.aliveAt p = (g.naiveNext avg p).1 := congrArg Prod.fst (hview p)
  constructor
  · intro hA
    have hpin : g.inBounds p := Grid.aliveAt_inBounds hWF hA
    constructor
    · intro hn
      rw [hfst, Grid.naiveNext, if_pos hpin]
      simp [Grid.naiveCellNext, hA, hn]
    · intro hn
      have hn' : ¬((g.liveNeighborCoords p).length < 2 ∨
          3 < (g.liveNeighborCoords p).length) := by omega
      rw [hfst, Grid.naiveNext, if_pos hpin]
      simp [Grid.naiveCellNext, hA, hn']
  · intro hA hn hpin
    rw [hfst, Grid.naiveNext, if_pos hpin]
    simp [Grid.naiveCellNext, hA, hn]

/-- Witness for C1 on a concrete 2×2 grid: an L-triomino's dead corner
(1,1) has exactly 3 live neighbors and is alive after the tick. -/
theorem tick_fates_witness :
    (⟨1, 1, [((0, 0), ⟨true, some (10, 20, 30)⟩), ((1, 0), ⟨true, some (40, 50, 60)⟩),
        ((0, 1), ⟨true, some (70, 80, 90)⟩)]⟩ : Grid).WF ∧
    (⟨1, 1, [((0, 0), ⟨true, some (10, 20, 30)⟩), ((1, 0), ⟨true, some (40, 50, 60)⟩),
        ((0, 1), ⟨true, some (70, 80, 90)⟩)]⟩ : Grid).tick (fun a _ _ => a) =
      some ⟨1, 1, [((0, 0), ⟨true, some (10, 20, 30)⟩), ((1, 0), ⟨true, some (40, 50, 60)⟩),
        ((0, 1), ⟨true, some (70, 80, 90)⟩), ((1, 1), ⟨true, some (10, 20, 30)⟩)]⟩ ∧
    (⟨1, 1, [((0, 0), ⟨true, some (10, 20, 30)⟩), ((1, 0), ⟨true, some (40, 50, 60)⟩),
        ((0, 1), ⟨true, some (70, 80, 90)⟩), ((1, 1), ⟨true, some (10, 20, 30)⟩)]⟩ :
      Grid).aliveAt (1, 1) = true :=
  ⟨by decide, by decide,
    (tick_fates
      ⟨1, 1, [((0, 0), ⟨true, some (10, 20, 30)⟩), ((1, 0), ⟨true, some (40, 50, 60)⟩),
        ((0, 1), ⟨true, some (70, 80, 90)⟩)]⟩
      (fun a _ _ => a)
      ⟨1, 1, [((0, 0), ⟨true, some (10, 20, 30)⟩), ((1, 0), ⟨true, some (40, 50, 60)⟩),
        ((0, 1), ⟨true, some (70, 80, 90)⟩), ((1, 1), ⟨true, some (10, 20, 30)⟩)]⟩
      (by decide) (by decide) (1, 1)).2 (by decide) (by decide) (by decide)⟩

/--
C2: the sparse worklist traversal of `tick` (start from the live cells,
visit each coordinate at most once, enqueue a visited cell's neighbors
only when it is alive) computes exactly the naive evaluation of every
in-bounds cell against the classical rule on the pre-tick snapshot —
hence a result independent of visitation order, since the naive
specification mentions no order; the checked set is exactly the live
cells plus the in-bounds neighbors of live cells, so a dead cell with no
live neighbor is never visited and its observable state is unchanged.
-/
theorem tick_refines_naive (g : Grid) (avg : RGB → RGB → RGB → RGB) (g' : Grid)
    (hWF : g.WF) (htick : g.tick avg = some g') :
    (∀ p, g'.view p = g.naiveNext avg p) ∧
    ∃ gmid cf tf, g.tickTrace avg = some (gmid, cf, tf) ∧
      (∀ p, p ∈ cf ↔ g.Evaluated p) ∧
      (∀ p, g.aliveAt p = false → g.liveNeighborCoords p = [] →
        p ∉ cf ∧ g'.view p = g.view p) := by
  obtain ⟨gmid, cf, tf, htr, -, -, -, hview, hcf, hunch⟩ := tick_run_spec g avg hWF htick
  refine ⟨hview, gmid, cf, tf, htr, hcf, ?_⟩
  intro p hA hn
  have hne : ¬ g.Evaluated p := by
    rintro (h | ⟨q, hq, hpq⟩)
    · rw [hA] at h; cases h
    · have hqin : g.inBounds q := Grid.aliveAt_inBounds hWF hq
      have hmem : q ∈ g.liveNeighborCoords p := by
        rw [Grid.liveNeighborCoords, List.mem_filter]
        exact ⟨Grid.neighborCoords_symm hqin hpq, hq⟩
      rw [hn] at hmem
      cases hmem
  exact ⟨fun h => hne ((hcf p).1 h), hunch p hne⟩

/-- Witness for C2 on a concrete horizontal blinker in a 5×3 grid: the
tick's result agrees with the naive rule at every coordinate. -/
theorem tick_refines_naive_witness :
    (⟨4, 2, [((1, 1), ⟨true, some (10, 20, 30)⟩), ((2, 1), ⟨true, some (10, 20, 30)⟩),
        ((3, 1), ⟨true, some (10, 20, 30)⟩)]⟩ : Grid).WF ∧
    (⟨4, 2, [((1, 1), ⟨true, some (10, 20, 30)⟩), ((2, 1), ⟨true, some (10, 20, 30)⟩),
        ((3, 1), ⟨true, some (10, 20, 30)⟩)]⟩ : Grid).tick (fun a _ _ => a) =
      some ⟨4, 2,
        [((1, 1), ⟨false, none⟩), ((2, 1), ⟨true, some (10, 20, 30)⟩),
         ((3, 1), ⟨false, none⟩), ((2, 0), ⟨true, some (10, 20, 30)⟩),
         ((3, 0), ⟨false, none⟩), ((4, 0), ⟨false, none⟩),
         ((4, 1), ⟨false, none⟩), ((2, 2), ⟨true, some (10, 20, 30)⟩),
         ((3, 2), ⟨false, none⟩), ((4, 2), ⟨false, none⟩),
         ((1, 2), ⟨false, none⟩), ((1, 0), ⟨false, none⟩),
         ((0, 1), ⟨false, none⟩), ((0, 2), ⟨false, none⟩),
         ((0, 0), ⟨false, none⟩)]⟩ ∧
    (∀ p, (⟨4, 2,
        [((1, 1), ⟨false, none⟩), ((2, 1), ⟨true, some (10, 20, 30)⟩),
         ((3, 1), ⟨false, none⟩), ((2, 0), ⟨true, some (10, 20, 30)⟩),
         ((3, 0), ⟨false, none⟩), ((4, 0), ⟨false, none⟩),
         ((4, 1), ⟨false, none⟩), ((2, 2), ⟨true, some (10, 20, 30)⟩),
         ((3, 2), ⟨false, none⟩), ((4, 2), ⟨false, none⟩),
         ((1, 2), ⟨false, none⟩), ((1, 0), ⟨false, none⟩),
         ((0, 1), ⟨false, none⟩), ((0, 2), ⟨false, none⟩),
         ((0, 0), ⟨false, none⟩)]⟩ : Grid).view p =
      (⟨4, 2, [((1, 1), ⟨true, some (10, 20, 30)⟩), ((2, 1), ⟨true, some (10, 20, 30)⟩),
        ((3, 1), ⟨true, some (10, 20, 30)⟩)]⟩ : Grid).naiveNext (fun a _ _ => a) p) :=
  ⟨by decide, by decide,
    (tick_refines_naive
      ⟨4, 2, [((1, 1), ⟨true, some (10, 20, 30)⟩), ((2, 1), ⟨true, some (10, 20, 30)⟩),
        ((3, 1), ⟨true, some (10, 20, 30)⟩)]⟩
      (fun a _ _ => a)
      ⟨4, 2,
        [((1, 1), ⟨false, none⟩), ((2, 1), ⟨true, some (10, 20, 30)⟩),
         ((3, 1), ⟨false, none⟩), ((2, 0), ⟨true, some (10, 20, 30)⟩),
         ((3, 0), ⟨false, none⟩), ((4, 0), ⟨false, none⟩),
         ((4, 1), ⟨false, none⟩), ((2, 2), ⟨true, some (10, 20, 30)⟩),
         ((3, 2), ⟨false, none⟩), ((4, 2), ⟨false, none⟩),
         ((1, 2), ⟨false, none⟩), ((1, 0), ⟨false, none⟩),
         ((0, 1), ⟨false, none⟩), ((0, 2), ⟨false, none⟩),
         ((0, 0), ⟨false, none⟩)]⟩
      (by decide) (by decide)).1⟩

/--
C4: on every well-formed grid (stored cells in bounds, live cells
carrying valid RGB colors) and for every birth-color pipeline sending
valid colors to a valid color, `tick` completes without hitting any
assertion (`setColor`'s range check and `setAlive`'s color check always
hold) and the result is again well-formed; and a grid with no live cell
ticks to itself unchanged.
-/
theorem tick_total_spec (g : Grid) (avg : RGB → RGB → RGB → RGB)
    (hWF : g.WF) (hV : ValidAvg avg) :
    (∃ g', g.tick avg = some g' ∧ g'.WF) ∧
    (g.liveList = [] → g.tick avg = some g) := by
  constructor
  · obtain ⟨g', htick⟩ := tick_some g avg hWF hV
    obtain ⟨-, -, -, -, -, -, hwf, -, -, -⟩ := tick_run_spec g avg hWF htick
    exact ⟨g', htick, hwf⟩
  · intro hdead
    have htr : g.tickTrace avg = some (g, ∅, []) := by
      rw [Grid.tickTrace, hdead]
      cases g.tickFuel <;> rfl
    rw [Grid.tick, htr]
    rfl

/-- Witness for C4 on a concrete all-dead 2×2 grid with a pipeline that
returns its first argument. -/
theorem tick_total_spec_witness :
    (⟨1, 1, []⟩ : Grid).WF ∧ ValidAvg (fun a _ _ => a) ∧
    ((∃ g', (⟨1, 1, []⟩ : Grid).tick (fun a _ _ => a) = some g' ∧ g'.WF) ∧
      ((⟨1, 1, []⟩ : Grid).liveList = [] →
        (⟨1, 1, []⟩ : Grid).tick (fun a _ _ => a) = some ⟨1, 1, []⟩)) :=
  ⟨by decide, fun a b c ha hb hc => ha,
    tick_total_spec ⟨1, 1, []⟩ (fun a _ _ => a) (by decide) (fun a b c ha hb hc => ha)⟩

/-! ## Pattern placement: claims C6 and C7 -/

theorem Grid.mem_allCoordsList (g : Grid) (p : Coord) :
    p ∈ g.allCoordsList ↔ g.inBounds p := by
  simp only [Grid.allCoordsList, Grid.inBounds]
  constructor
  · intro hp
    obtain ⟨y, hy, hx⟩ := List.mem_flatMap.1 hp
    obtain ⟨x, hxr, rfl⟩ := List.mem_map.1 hx
    rw [List.mem_range] at hy hxr
    refine ⟨?_, ?_, ?_, ?_⟩ <;> dsimp only <;> simp only [Int.ofNat_eq_natCast] <;> omega
  · rintro ⟨h1, h2, h3, h4⟩
    refine List.mem_flatMap.2 ⟨p.2.toNat, List.mem_range.2 (by omega),
      List.mem_map.2 ⟨p.1.toNat, List.mem_range.2 (by omega), ?_⟩⟩
    rcases p with ⟨px, py⟩
    dsimp only at h1 h2 h3 h4 ⊢
    simp only [Int.ofNat_eq_natCast, Prod.mk.injEq]
    omega

theorem Grid.mem_deadCoords (g : Grid) (p : Coord) :
    p ∈ g.deadCoords ↔ g.inBounds p ∧ g.aliveAt p = false := by
  rw [Grid.deadCoords, List.mem_filter, Grid.mem_allCoordsList]
  simp

theorem Grid.getAllDeadCellsO_spec (g : Grid) :
    ∃ g₀, g.getAllDeadCellsO = some (g.deadCoords, g₀) ∧
      g₀.maxX = g.maxX ∧ g₀.maxY = g.maxY ∧
      (∀ q, g₀.aliveAt q = g.aliveAt q) ∧ (∀ q, g₀.colorAt q = g.colorAt q) ∧
      (g.WF → g₀.WF) := by
  obtain ⟨sts, g₀, hget, hx, hy, ha, hc, hwf⟩ :=
    Grid.getCellsO_spec g.deadCoords g
      (fun p hp => ((g.mem_deadCoords p).1 hp).1)
  exact ⟨g₀, by simp [Grid.getAllDeadCellsO, hget], hx, hy, ha, hc, hwf⟩

theorem variationsCellsO_spec :
    ∀ (vars : List (List (ℤ × ℤ))) (g : Grid) (center : Coord),
    (∀ v ∈ vars, ∀ o ∈ v, g.inBounds (center.1 + o.1, center.2 + o.2)) →
    ∃ g', variationsCellsO g vars center = some (vars.map (addOffsets center), g') ∧
      g'.maxX = g.maxX ∧ g'.maxY = g.maxY ∧
      (∀ q, g'.aliveAt q = g.aliveAt q) ∧ (∀ q, g'.colorAt q = g.colorAt q) ∧
      (g.WF → g'.WF)
  | [], g, center, _ => ⟨g, rfl, rfl, rfl, fun _ => rfl, fun _ => rfl, id⟩
  | v :: vs, g, center, hin => by
    have hvin : ∀ q ∈ addOffsets center v, g.inBounds q := by
      intro q hq
      obtain ⟨o, ho, rfl⟩ := List.mem_map.1 hq
      exact hin v (List.mem_cons_self _ _) o ho
    obtain ⟨sts, g₁, hget, hx₁, hy₁, ha₁, hc₁, hwf₁⟩ :=
      Grid.getCellsO_spec (addOffsets center v) g hvin
    have hin₁ : ∀ w ∈ vs, ∀ o ∈ w, g₁.inBounds (center.1 + o.1, center.2 + o.2) := by
      intro w hw o ho
      exact (Grid.inBounds_congr hx₁ hy₁ _).2 (hin w (List.mem_cons_of_mem _ hw) o ho)
    obtain ⟨g₂, hrec, hx₂, hy₂, ha₂, hc₂, hwf₂⟩ := variationsCellsO_spec vs g₁ center hin₁
    refine ⟨g₂, ?_, hx₂.trans hx₁, hy₂.trans hy₁,
      fun q => (ha₂ q).trans (ha₁ q), fun q => (hc₂ q).trans (hc₁ q),
      fun h => hwf₂ (hwf₁ h)⟩
    rw [variationsCellsO, hget]
    simp only [Option.some_bind, hrec, Option.map_some', List.map_cons]

theorem filterValidVariationsO_spec (g : Grid) (vars : List (List (ℤ × ℤ)))
    (center : Coord)
    (hin : ∀ v ∈ vars, ∀ o ∈ v, g.inBounds (center.1 + o.1, center.2 + o.2)) :
    ∃ g', filterValidVariationsO g vars center =
        some ((vars.map (addOffsets center)).filter
          (fun vr => vr.all fun q => !g.aliveAt q), g') ∧
      g'.maxX = g.maxX ∧ g'.maxY = g.maxY ∧
      (∀ q, g'.aliveAt q = g.aliveAt q) ∧ (∀ q, g'.colorAt q = g.colorAt q) ∧
      (g.WF → g'.WF) := by
  obtain ⟨g', hvar, hx, hy, ha, hc, hwf⟩ := variationsCellsO_spec vars g center hin
  refine ⟨g', ?_, hx, hy, ha, hc, hwf⟩
  rw [filterValidVariationsO, hvar]
  simp only [Option.map_some', Option.some_inj, Prod.mk.injEq]
  refine ⟨List.filter_congr ?_, trivial⟩
  intro vr _
  simp only [ha]

/-- An element of a list that survives no `eraseIdx i` removal must be the
element at index `i`. -/
theorem eq_getElem_of_not_mem_eraseIdx {α : Type} {l : List α} {i : ℕ}
    (hi : i < l.length) {p : α} (hp : p ∈ l) (hnp : p ∉ l.eraseIdx i) :
    p = l.get ⟨i, hi⟩ := by
  rw [List.eraseIdx_eq_take_drop_succ] at hnp
  have hl : l = l.take i ++ l.get ⟨i, hi⟩ :: l.drop (i + 1) := by
    conv_lhs => rw [← List.take_append_drop i l]
    rw [List.drop_eq_getElem_cons hi]
    rfl
  rw [hl] at hp
  rcases List.mem_append.1 hp with h | h
  · exact absurd (List.mem_append_left _ h) hnp
  · rcases List.mem_cons.1 h with rfl | h
    · rfl
    · exact absurd (List.mem_append_right _ h) hnp

theorem getD_mem_of_lt {α : Type} {l : List α} {i : ℕ} (hi : i < l.length) (d : α) :
    l.getD i d ∈ l := by
  rw [List.getD_eq_getElem?_getD, List.getElem?_eq_getElem hi]
  exact List.getElem_mem hi

theorem getD_eq_get {α : Type} {l : List α} {i : ℕ} (hi : i < l.length) (d : α) :
    l.getD i d = l.get ⟨i, hi⟩ := by
  rw [List.getD_eq_getElem?_getD, List.getElem?_eq_getElem hi]
  rfl

theorem placeLoop_spec (rand : ℕ → ℕ) (vars : List (List (ℤ × ℤ))) :
    ∀ (fuel k : ℕ) (g : Grid) (cands : List Coord),
    cands.length ≤ fuel →
    (∀ p ∈ cands, ∀ v ∈ vars, ∀ o ∈ v, g.inBounds (p.1 + o.1, p.2 + o.2)) →
    g.WF →
    ∃ res g', placeLoop rand vars fuel k g cands = some (res, g') ∧
      g'.maxX = g.maxX ∧ g'.maxY = g.maxY ∧
      (∀ q, g'.aliveAt q = g.aliveAt q) ∧ (∀ q, g'.colorAt q = g.colorAt q) ∧ g'.WF ∧
      (res = none → ∀ p ∈ cands, ∀ v ∈ vars,
        ¬(∀ o ∈ v, g.aliveAt (p.1 + o.1, p.2 + o.2) = false)) ∧
      (∀ cells, res = some cells → ∃ p, p ∈ cands ∧ ∃ v, v ∈ vars ∧
        cells = addOffsets p v ∧
        (∀ o ∈ v, g.aliveAt (p.1 + o.1, p.2 + o.2) = false)) := by
  intro fuel
  induction fuel with
  | zero =>
    intro k g cands hfuel _ hWF
    have hnil : cands = [] := List.eq_nil_of_length_eq_zero (by omega)
    subst hnil
    exact ⟨none, g, rfl, rfl, rfl, fun _ => rfl, fun _ => rfl, hWF,
      (by intro _ p hp; simp at hp), (by intro cells h; cases h)⟩
  | succ fuel ih =>
    intro k g cands hfuel hin hWF
    cases cands with
    | nil =>
      exact ⟨none, g, rfl, rfl, rfl, fun _ => rfl, fun _ => rfl, hWF,
        (by intro _ p hp; simp at hp), (by intro cells h; cases h)⟩
    | cons c cs =>
      have hlen : 0 < (c :: cs).length := by simp
      have hilt : rand k % (c :: cs).length < (c :: cs).length := Nat.mod_lt _ hlen
      have hcmem : (c :: cs).getD (rand k % (c :: cs).length) c ∈ c :: cs :=
        getD_mem_of_lt hilt c
      obtain ⟨g₁, hfv, hx₁, hy₁, ha₁, hc₁, hwf₁⟩ :=
        filterValidVariationsO_spec g vars ((c :: cs).getD (rand k % (c :: cs).length) c)
          (hin _ hcmem)
      by_cases hvl :
          0 < ((vars.map (addOffsets ((c :: cs).getD (rand k % (c :: cs).length) c))).filter
            (fun vr => vr.all fun q => !g.aliveAt q)).length
      · refine ⟨some (((vars.map (addOffsets ((c :: cs).getD (rand k % (c :: cs).length) c))).filter
            (fun vr => vr.all fun q => !g.aliveAt q)).getD
              (rand (k + 1) %
                ((vars.map (addOffsets ((c :: cs).getD (rand k % (c :: cs).length) c))).filter
                  (fun vr => vr.all fun q => !g.aliveAt q)).length) []),
          g₁, ?_, hx₁, hy₁, ha₁, hc₁, hwf₁ hWF, (by intro h; cases h), ?_⟩
        · rw [placeLoop, hfv]
          dsimp only
          rw [if_pos hvl]
        · intro cells hcells
          rw [Option.some_inj] at hcells
          subst hcells
          have hjlt := Nat.mod_lt (rand (k + 1)) hvl
          have hchosen := getD_mem_of_lt hjlt ([] : List Coord)
          rw [List.mem_filter] at hchosen
          obtain ⟨hmap, hall⟩ := hchosen
          obtain ⟨v, hv, hveq⟩ := List.mem_map.1 hmap
          refine ⟨_, hcmem, v, hv, hveq.symm, ?_⟩
          intro o ho
          have hqmem : ((((c :: cs).getD (rand k % (c :: cs).length) c)).1 + o.1,
              (((c :: cs).getD (rand k % (c :: cs).length) c)).2 + o.2) ∈
                addOffsets ((c :: cs).getD (rand k % (c :: cs).length) c) v :=
            List.mem_map.2 ⟨o, ho, rfl⟩
          have := List.all_eq_true.1 hall _ (hveq ▸ hqmem)
          simpa using this
      · have hercands : ((c :: cs).eraseIdx (rand k % (c :: cs).length)).length ≤ fuel := by
          rw [List.length_eraseIdx_of_lt hilt]
          simp only [List.length_cons] at hfuel ⊢
          omega
        have hin' : ∀ p ∈ (c :: cs).eraseIdx (rand k % (c :: cs).length), ∀ v ∈ vars,
            ∀ o ∈ v, g₁.inBounds (p.1 + o.1, p.2 + o.2) := by
          intro p hp v hv o ho
          exact (Grid.inBounds_congr hx₁ hy₁ _).2
            (hin p (List.eraseIdx_subset _ _ hp) v hv o ho)
        obtain ⟨res, g₂, hrec, hx₂, hy₂, ha₂, hc₂, hwf₂, hnone, hsome⟩ :=
          ih (k + 1) g₁ ((c :: cs).eraseIdx (rand k % (c :: cs).length)) hercands hin' (hwf₁ hWF)
        refine ⟨res, g₂, ?_, hx₂.trans hx₁, hy₂.trans hy₁,
          fun q => (ha₂ q).trans (ha₁ q), fun q => (hc₂ q).trans (hc₁ q), hwf₂, ?_, ?_⟩
        · rw [placeLoop, hfv]
          dsimp only
          rw [if_neg (by omega), hrec]
        · intro hres p hp v hv hfits
          by_cases hp' : p ∈ (c :: cs).eraseIdx (rand k % (c :: cs).length)
          · refine hnone hres p hp' v hv ?_
            intro o ho
            rw [ha₁]
            exact hfits o ho
          · have hpd : p = (c :: cs).getD (rand k % (c :: cs).length) c := by
              rw [getD_eq_get hilt]
              exact eq_getElem_of_not_mem_eraseIdx hilt hp hp'
            apply hvl
            have hmem : addOffsets p v ∈
                (vars.map (addOffsets ((c :: cs).getD (rand k % (c :: cs).length) c))).filter
                  (fun vr => vr.all fun q => !g.aliveAt q) := by
              rw [List.mem_filter]
              constructor
              · rw [List.mem_map]
                exact ⟨v, hv, by rw [hpd]⟩
              · rw [List.all_eq_true]
                intro q hq
                obtain ⟨o, ho, rfl⟩ := List.mem_map.1 hq
                simpa using hfits o ho
            exact List.length_pos.2 (List.ne_nil_of_mem hmem)
        · intro cells hcells
          obtain ⟨p, hp, v, hv, hceq, hdead⟩ := hsome cells hcells
          refine ⟨p, List.eraseIdx_subset _ _ hp, v, hv, hceq, ?_⟩
          intro o ho
          rw [← ha₁]
          exact hdead o ho

theorem setPatternCellsO_spec (color : RGB) (hc : ValidRGB color) :
    ∀ (ps : List Coord) (g : Grid), (∀ p ∈ ps, g.inBounds p) → g.WF →
    ∃ g', setPatternCellsO color g ps = some g' ∧
      g'.maxX = g.maxX ∧ g'.maxY = g.maxY ∧ g'.WF ∧
      (∀ q ∈ ps, g'.view q = (true, some color)) ∧
      (∀ q, q ∉ ps → g'.view q = g.view q)
  | [], g, _, hWF => ⟨g, rfl, rfl, rfl, hWF, (by simp), fun _ _ => rfl⟩
  | p :: ps, g, hin, hWF => by
    have hpin : g.inBounds p := hin p (List.mem_cons_self _ _)
    have hwf₁ : (g.setCellState p ⟨true, some color⟩).WF :=
      Grid.WF_setCellState hWF hpin (fun _ => by
        show ValidRGB color
        exact hc)
    have hin₁ : ∀ q ∈ ps, (g.setCellState p ⟨true, some color⟩).inBounds q := by
      intro q hq
      exact (Grid.inBounds_congr rfl rfl q).2 (hin q (List.mem_cons_of_mem _ hq))
    obtain ⟨g', hrun, hx, hy, hwf, hyes, hno⟩ :=
      setPatternCellsO_spec color hc ps (g.setCellState p ⟨true, some color⟩) hin₁ hwf₁
    have hview₁ : ∀ q, (g.setCellState p ⟨true, some color⟩).view q =
        if p = q then (true, some color) else g.view q := by
      intro q
      rw [Grid.view, Grid.view, Grid.aliveAt_setCellState, Grid.colorAt_setCellState]
      split <;> rfl
    refine ⟨g', ?_, hx, hy, hwf, ?_, ?_⟩
    · rw [setPatternCellsO, Grid.getD_find, cellSetColor, if_pos hc]
      dsimp only
      rw [show cellSetAlive ⟨g.aliveAt p, some color⟩ = some ⟨true, some color⟩ from rfl]
      exact hrun
    · intro q hq
      rcases List.mem_cons.1 hq with rfl | hq
      · by_cases hqps : q ∈ ps
        · exact hyes q hqps
        · rw [hno q hqps, hview₁ q, if_pos rfl]
      · exact hyes q hq
    · intro q hq
      rw [List.mem_cons] at hq
      push_neg at hq
      rw [hno q hq.2, hview₁ q, if_neg (fun h => hq.1 h.symm)]

/-- For each pattern, an eligible in-bounds center keeps every variation
offset in bounds (the comment at game.js lines 306–307). -/
theorem pattern_eligible_inBounds (pat : Pattern) (g : Grid) (p : Coord)
    (hp : g.inBounds p) (he : pat.eligible g p = true) :
    ∀ v ∈ pat.variations, ∀ o ∈ v, g.inBounds (p.1 + o.1, p.2 + o.2) := by
  obtain ⟨h1, h2, h3, h4⟩ := hp
  intro v hv o ho
  cases pat <;>
  · rw [Pattern.eligible, decide_eq_true_eq] at he
    rw [Pattern.variations] at hv
    fin_cases hv <;> fin_cases ho <;>
    · refine ⟨?_, ?_, ?_, ?_⟩ <;> dsimp only <;> omega

theorem pattern_variations_ne_nil (pat : Pattern) : ∀ v ∈ pat.variations, v ≠ [] := by
  cases pat <;> decide

/--
The common behavior of `tryGenerateBlock`/`Blinker`/`Glider` on a
well-formed grid with a valid color: the call always completes; if no
eligible dead center has a fully-dead variation, the observable grid is
unchanged; otherwise some eligible center and variation with all cells
dead is chosen, its cells are set to the given color and made alive, and
every other cell is unchanged.
-/
theorem tryGeneratePattern_spec (pat : Pattern) (g : Grid) (color : RGB)
    (rand : ℕ → ℕ) (hWF : g.WF) (hc : ValidRGB color) :
    ∃ g', g.tryGeneratePattern pat color rand = some g' ∧
      g'.maxX = g.maxX ∧ g'.maxY = g.maxY ∧ g'.WF ∧
      ((¬ ∃ p, p ∈ g.deadCoords.filter (pat.eligible g) ∧ ∃ v, v ∈ pat.variations ∧
          ∀ o ∈ v, g.aliveAt (p.1 + o.1, p.2 + o.2) = false) →
        ∀ q, g'.view q = g.view q) ∧
      ((∃ p, p ∈ g.deadCoords.filter (pat.eligible g) ∧ ∃ v, v ∈ pat.variations ∧
          ∀ o ∈ v, g.aliveAt (p.1 + o.1, p.2 + o.2) = false) →
        ∃ p v, p ∈ g.deadCoords.filter (pat.eligible g) ∧ v ∈ pat.variations ∧
          (∀ o ∈ v, g.aliveAt (p.1 + o.1, p.2 + o.2) = false) ∧
          (∀ o ∈ v, g'.view (p.1 + o.1, p.2 + o.2) = (true, some color)) ∧
          (∀ q, q ∉ addOffsets p v → g'.view q = g.view q)) := by
  obtain ⟨g₀, hdead, hx₀, hy₀, ha₀, hc₀, hwf₀⟩ := g.getAllDeadCellsO_spec
  have hin : ∀ p ∈ g.deadCoords.filter (pat.eligible g), ∀ v ∈ pat.variations,
      ∀ o ∈ v, g₀.inBounds (p.1 + o.1, p.2 + o.2) := by
    intro p hp v hv o ho
    rw [List.mem_filter] at hp
    refine (Grid.inBounds_congr hx₀ hy₀ _).2 ?_
    exact pattern_eligible_inBounds pat g p ((g.mem_deadCoords p).1 hp.1).1 hp.2 v hv o ho
  obtain ⟨res, g₁, hloop, hx₁, hy₁, ha₁, hc₁, hwf₁, hnone, hsome⟩ :=
    placeLoop_spec rand pat.variations (g.deadCoords.filter (pat.eligible g)).length 0
      g₀ (g.deadCoords.filter (pat.eligible g)) le_rfl hin (hwf₀ hWF)
  have halive₁ : ∀ q, g₁.aliveAt q = g.aliveAt q := fun q => (ha₁ q).trans (ha₀ q)
  have hcolor₁ : ∀ q, g₁.colorAt q = g.colorAt q := fun q => (hc₁ q).trans (hc₀ q)
  have hview₁ : ∀ q, g₁.view q = g.view q := by
    intro q
    rw [Grid.view, Grid.view, halive₁ q, hcolor₁ q]
  cases res with
  | none =>
    refine ⟨g₁, ?_, hx₁.trans hx₀, hy₁.trans hy₀, hwf₁, (fun _ => hview₁), ?_⟩
    · rw [Grid.tryGeneratePattern, hdead, Option.some_bind, tryInstantiatePatternO, hloop]
    · rintro ⟨p, hp, v, hv, hfits⟩
      exact absurd (fun o ho => (ha₀ _).trans (hfits o ho))
        (hnone rfl p hp v hv)
  | some cells =>
    obtain ⟨p, hp, v, hv, hceq, hdeadv⟩ := hsome cells rfl
    subst hceq
    have hinbounds : ∀ q ∈ addOffsets p v, g₁.inBounds q := by
      intro q hq
      obtain ⟨o, ho, rfl⟩ := List.mem_map.1 hq
      exact (Grid.inBounds_congr hx₁ hy₁ _).2 (hin p hp v hv o ho)
    obtain ⟨g₂, hset, hx₂, hy₂, hwf₂, hyes, hno⟩ :=
      setPatternCellsO_spec color hc (addOffsets p v) g₁ hinbounds hwf₁
    refine ⟨g₂, ?_, (hx₂.trans hx₁).trans hx₀, (hy₂.trans hy₁).trans hy₀, hwf₂, ?_, ?_⟩
    · rw [Grid.tryGeneratePattern, hdead, Option.some_bind, tryInstantiatePatternO, hloop]
      exact hset
    · intro hnofits
      exact absurd ⟨p, hp, v, hv, fun o ho => (ha₀ _).symm.trans (hdeadv o ho)⟩ hnofits
    · intro _
      refine ⟨p, v, hp, hv, (fun o ho => (ha₀ _).symm.trans (hdeadv o ho)), ?_, ?_⟩
      · intro o ho
        exact hyes _ (List.mem_map.2 ⟨o, ho, rfl⟩)
      · intro q hq
        rw [hno q hq, hview₁ q]

theorem deadCoords_eq_nil (g : Grid) (hall : ∀ p, g.inBounds p → g.aliveAt p = true) :
    g.deadCoords = [] := by
  rw [Grid.deadCoords, List.filter_eq_nil_iff]
  intro p hp
  rw [g.mem_allCoordsList p] at hp
  simp [hall p hp]

theorem tryGeneratePattern_of_no_dead (g : Grid) (pat : Pattern) (color : RGB)
    (rand : ℕ → ℕ) (hdc : g.deadCoords = []) :
    g.tryGeneratePattern pat color rand = some g := by
  rw [Grid.tryGeneratePattern, Grid.getAllDeadCellsO, hdc]
  rfl

/--
C7: for every well-formed grid, valid color, pattern (block, blinker or
glider) and random stream, the placement loop terminates with a defined
result (the fuel, one unit per candidate drawn without replacement,
provably suffices), and it places nothing — leaves every cell's
observable state unchanged — if and only if no currently-dead,
boundary-eligible center has a variation consisting entirely of dead
cells.
-/
theorem pattern_placement_terminates (pat : Pattern) (g : Grid) (color : RGB)
    (rand : ℕ → ℕ) (hWF : g.WF) (hc : ValidRGB color) :
    ∃ g', g.tryGeneratePattern pat color rand = some g' ∧
      ((∀ q, g'.view q = g.view q) ↔
        ¬ ∃ p, p ∈ g.deadCoords.filter (pat.eligible g) ∧ ∃ v, v ∈ pat.variations ∧
          ∀ o ∈ v, g.aliveAt (p.1 + o.1, p.2 + o.2) = false) := by
  obtain ⟨g', hrun, hx, hy, hwf, hnof, hsof⟩ := tryGeneratePattern_spec pat g color rand hWF hc
  refine ⟨g', hrun, ?_, hnof⟩
  intro hviews
  by_contra hfits
  obtain ⟨p, v, hp, hv, hdeadv, hyes, -⟩ := hsof hfits
  obtain ⟨o, ho⟩ := List.exists_mem_of_ne_nil v (pattern_variations_ne_nil pat v hv)
  have h1 := hyes o ho
  have h2 := hviews (p.1 + o.1, p.2 + o.2)
  have h3 := hdeadv o ho
  have h4 := congrArg Prod.fst (h1.symm.trans h2)
  simp only [Grid.view] at h4
  rw [h3] at h4
  cases h4

/-- Witness for C7 at a concrete pattern, grid and stream. -/
theorem pattern_placement_terminates_witness :
    ∃ g', (⟨1, 1, []⟩ : Grid).tryGeneratePattern .block (1, 2, 3) (fun _ => 0) = some g' ∧
      ((∀ q, g'.view q = (⟨1, 1, []⟩ : Grid).view q) ↔
        ¬ ∃ p, p ∈ (⟨1, 1, []⟩ : Grid).deadCoords.filter (Pattern.block.eligible ⟨1, 1, []⟩) ∧
          ∃ v, v ∈ Pattern.block.variations ∧
          ∀ o ∈ v, (⟨1, 1, []⟩ : Grid).aliveAt (p.1 + o.1, p.2 + o.2) = false) :=
  pattern_placement_terminates .block ⟨1, 1, []⟩ (1, 2, 3) (fun _ => 0) (by decide) (by decide)

/-! ## Claim C6: `tryGenerateBlock` (corrected) -/

/--
C6 counterexample: on the all-dead 1×1 grid (`maxX = maxY = 0`) no cell
satisfies the block's eligibility filter `x < maxX && y < maxY`, so
`tryGenerateBlock` places nothing — the claim's "on a grid whose cells
are all dead it always succeeds, marking exactly 4 cells alive" fails.
(The resulting grid differs from the input only by the materialization of
the probed dead cell; no cell is alive.)
-/
theorem tryGenerateBlock_degenerate :
    (⟨0, 0, []⟩ : Grid).tryGenerateBlock (0, 0, 0) (fun _ => 0) =
      some ⟨0, 0, [((0, 0), ⟨false, none⟩)]⟩ ∧
    Grid.liveList ⟨0, 0, [((0, 0), ⟨false, none⟩)]⟩ = [] := by
  constructor <;> rfl

/--
C6 (amended): for every valid RGB color, `tryGenerateBlock` on a
fully-alive well-formed grid changes nothing (it returns the grid
unchanged); on an all-dead grid with `maxX ≥ 1` and `maxY ≥ 1` it always
succeeds, marking exactly the four cells of a 2×2 block alive with the
given color — the top-left corner satisfying `0 ≤ x < maxX`,
`0 ≤ y < maxY` — and changing no other cell.  (On a degenerate all-dead
grid with `maxX = 0` or `maxY = 0` no block fits and nothing is placed.)
-/
theorem tryGenerateBlock_spec (g : Grid) (c : RGB) (rand : ℕ → ℕ)
    (hWF : g.WF) (hc : ValidRGB c) :
    ((∀ p, g.inBounds p → g.aliveAt p = true) → g.tryGenerateBlock c rand = some g) ∧
    ((∀ p, g.aliveAt p = false) → 1 ≤ g.maxX → 1 ≤ g.maxY →
      ∃ g' x y, g.tryGenerateBlock c rand = some g' ∧
        0 ≤ x ∧ x < g.maxX ∧ 0 ≤ y ∧ y < g.maxY ∧
        ([((x, y) : Coord), (x + 1, y), (x, y + 1), (x + 1, y + 1)]).Nodup ∧
        (∀ q ∈ [((x, y) : Coord), (x + 1, y), (x, y + 1), (x + 1, y + 1)],
          g'.view q = (true, some c)) ∧
        (∀ q, q ∉ [((x, y) : Coord), (x + 1, y), (x, y + 1), (x + 1, y + 1)] →
          g'.view q = g.view q)) := by
  constructor
  · intro hall
    exact tryGeneratePattern_of_no_dead g .block c rand (deadCoords_eq_nil g hall)
  · intro hdead hgx hgy
    obtain ⟨g', hrun, -, -, -, -, hsof⟩ := tryGeneratePattern_spec .block g c rand hWF hc
    have hfits : ∃ p, p ∈ g.deadCoords.filter (Pattern.block.eligible g) ∧
        ∃ v, v ∈ Pattern.block.variations ∧
        ∀ o ∈ v, g.aliveAt (p.1 + o.1, p.2 + o.2) = false := by
      refine ⟨(0, 0), ?_, [(0, 0), (1, 0), (0, 1), (1, 1)],
        (by rw [Pattern.variations]; exact List.mem_singleton_self _),
        fun o _ => hdead _⟩
      rw [List.mem_filter]
      constructor
      · rw [g.mem_deadCoords]
        exact ⟨(by refine ⟨?_, ?_, ?_, ?_⟩ <;> dsimp only <;> omega), hdead _⟩
      · rw [Pattern.eligible, decide_eq_true_eq]
        dsimp only
        omega
    obtain ⟨p, v, hp, hv, -, hyes, hno⟩ := hsof hfits
    rw [Pattern.variations, List.mem_singleton] at hv
    subst hv
    rw [List.mem_filter] at hp
    have hpb := (g.mem_deadCoords p).1 hp.1
    have hpe := hp.2
    rw [Pattern.eligible, decide_eq_true_eq] at hpe
    have hlist : addOffsets p [((0 : ℤ), (0 : ℤ)), (1, 0), (0, 1), (1, 1)] =
        [(p.1, p.2), (p.1 + 1, p.2), (p.1, p.2 + 1), (p.1 + 1, p.2 + 1)] := by
      simp [addOffsets]
    refine ⟨g', p.1, p.2, hrun, hpb.1.1, hpe.1, hpb.1.2.2.1, hpe.2, ?_, ?_, ?_⟩
    · simp only [List.nodup_cons, List.mem_cons, List.mem_singleton, List.not_mem_nil,
        not_or, Prod.mk.injEq, List.nodup_nil, and_true, not_and, not_false_eq_true]
      refine ⟨⟨?_, ?_, ?_⟩, ⟨?_, ?_⟩, ?_⟩ <;> intro h <;> omega
    · intro q hq
      rw [← hlist] at hq
      obtain ⟨o, ho, rfl⟩ := List.mem_map.1 hq
      exact hyes o ho
    · intro q hq
      apply hno
      rw [hlist]
      exact hq

/-- Witness for C6's amended statement at a concrete all-dead grid. -/
theorem tryGenerateBlock_spec_witness :
    ((∀ p, (⟨2, 2, []⟩ : Grid).inBounds p → (⟨2, 2, []⟩ : Grid).aliveAt p = true) →
      (⟨2, 2, []⟩ : Grid).tryGenerateBlock (7, 8, 9) (fun _ => 3) = some ⟨2, 2, []⟩) ∧
    ((∀ p, (⟨2, 2, []⟩ : Grid).aliveAt p = false) → 1 ≤ (2 : ℤ) → 1 ≤ (2 : ℤ) →
      ∃ g' x y, (⟨2, 2, []⟩ : Grid).tryGenerateBlock (7, 8, 9) (fun _ => 3) = some g' ∧
        0 ≤ x ∧ x < (2 : ℤ) ∧ 0 ≤ y ∧ y < (2 : ℤ) ∧
        ([((x, y) : Coord), (x + 1, y), (x, y + 1), (x + 1, y + 1)]).Nodup ∧
        (∀ q ∈ [((x, y) : Coord), (x + 1, y), (x, y + 1), (x + 1, y + 1)],
          g'.view q = (true, some (7, 8, 9))) ∧
        (∀ q, q ∉ [((x, y) : Coord), (x + 1, y), (x, y + 1), (x + 1, y + 1)] →
          g'.view q = (⟨2, 2, []⟩ : Grid).view q)) :=
  tryGenerateBlock_spec ⟨2, 2, []⟩ (7, 8, 9) (fun _ => 3) (by decide) (by decide)

/-- Witness for C9 at a concrete populated grid and time. -/
theorem serialize_spec_witness :
    ∃ out, (⟨4, 2, [((1, 1), ⟨true, some (10, 20, 30)⟩)]⟩ : Grid).serializeO 9 5 3 = some out ∧
      out = (⟨4, 2, [((1, 1), ⟨true, some (10, 20, 30)⟩)]⟩ : Grid).serializeSpec 9 5 3 ∧
      (timeChars 9 5 3).length = 6 ∧
      (∀ c ∈ timeChars 9 5 3, c.isDigit = true) ∧
      out.count '|' = (⟨4, 2, [((1, 1), ⟨true, some (10, 20, 30)⟩)]⟩ : Grid).liveList.length ∧
      ((⟨4, 2, [((1, 1), ⟨true, some (10, 20, 30)⟩)]⟩ : Grid).liveList = [] → out = timeChars 9 5 3) :=
  serialize_spec ⟨4, 2, [((1, 1), ⟨true, some (10, 20, 30)⟩)]⟩ 9 5 3 (by decide)
    (by norm_num) (by norm_num) (by norm_num)

end Life
